import Mathlib

/-!
Verification of the colour-interpolation subsystem of the `ridgeplot` repository
(`src/ridgeplot/_colormodes.py`).

Numbers are modelled by `ℚ` (Python `int`/`float` arithmetic on the values
appearing here is exact), and Python exceptions by `Except Err`: any statement
that can raise (`/` with a zero denominator, `min`/`max`/`zip` on empty data,
explicit `raise ValueError`) is embedded as an `Except` computation, and a
Python list comprehension or loop that can raise becomes `mapME` (a mapM over
`Except` that stops at the first error, like the Python loop does).
-/

namespace Ridgeplot

/-- A trace: an ordered sequence of (x, y) points (`ridgeplot._types`). -/
abbrev Trace := List (ℚ × ℚ)

/-- A row of a densities grid: an ordered sequence of traces. -/
abbrev DensityRow := List Trace

/-- A densities grid: an ordered sequence of rows (`Densities` in `ridgeplot._types`). -/
abbrev Densities := List DensityRow

/-- The Python exceptions that the embedded code can raise. -/
inductive Err where
  /-- `ZeroDivisionError`, raised by `/` when the denominator is zero. -/
  | zeroDivision : Err
  /-- `ValueError` raised by `min`/`max`/`zip` on empty data. -/
  | valueError : Err
  /-- Invalid-input error raised by colour-scale normalisation (spec §4.3, §7). -/
  | invalidColorscale : Err
  /-- The `ValueError` raised by `compute_trace_colors` for an unrecognized
  colormode; it carries the tuple of valid options that the message enumerates. -/
  | invalidColormode (valid : List String) : Err
  /-- Invalid-input error for an interpolation position outside [0, 1] (spec §4.4, §7). -/
  | invalidInterpolant : Err
deriving DecidableEq, Repr

/-- Python true division `a / b`: raises `ZeroDivisionError` when `b == 0`. -/
def pydiv (a b : ℚ) : Except Err ℚ :=
  if b = 0 then .error .zeroDivision else .ok (a / b)

/-- Python `min(l)`: raises `ValueError` on an empty list, otherwise folds `min`. -/
def pymin : List ℚ → Except Err ℚ
  | [] => .error .valueError
  | a :: rest => .ok (rest.foldl min a)

/-- Python `max(l)`: raises `ValueError` on an empty list, otherwise folds `max`. -/
def pymax : List ℚ → Except Err ℚ
  | [] => .error .valueError
  | a :: rest => .ok (rest.foldl max a)

/-- Elementwise map in the `Except` monad, stopping at the first error exactly
like a Python loop that raises.  (Structural recursion, proof-friendly.) -/
def mapME {α β : Type} (f : α → Except Err β) : List α → Except Err (List β)
  | [] => .ok []
  | a :: rest =>
      match f a with
      | .error e => .error e
      | .ok b =>
          match mapME f rest with
          | .error e => .error e
          | .ok bs => .ok (b :: bs)

/-- `InterpolationContext` (dataclass in `_colormodes.py`): the densities grid
plus grid-wide statistics.  `n_rows`/`n_traces` are Python ints holding
non-negative counts; every arithmetic use below casts them into `ℚ` before
subtracting, so `ℕ` is a faithful carrier. -/
structure InterpolationContext where
  densities : Densities
  n_rows : ℕ
  n_traces : ℕ
  x_min : ℚ
  x_max : ℚ
deriving DecidableEq, Repr

/-- Modelled from the spec: `get_xy_extrema` lives in `ridgeplot._utils`, which is
not under `src/`.  Per spec §4.1 the context builder computes `(x_min, x_max)` as
the min/max of all x-coordinates across all traces in all rows (alongside the y
extrema), and fails with an invalid-input error when the grid is empty or any row
is empty; `min`/`max` of an empty point collection likewise fails. -/
def get_xy_extrema (densities : Densities) : Except Err (ℚ × ℚ × ℚ × ℚ) :=
  if densities = [] ∨ (∃ row ∈ densities, row = []) then .error .valueError
  else
    match pymin (((densities.map List.flatten).flatten).map Prod.fst) with
    | .error e => .error e
    | .ok x_min =>
        match pymax (((densities.map List.flatten).flatten).map Prod.fst) with
        | .error e => .error e
        | .ok x_max =>
            match pymin (((densities.map List.flatten).flatten).map Prod.snd) with
            | .error e => .error e
            | .ok y_min =>
                match pymax (((densities.map List.flatten).flatten).map Prod.snd) with
                | .error e => .error e
                | .ok y_max => .ok (x_min, x_max, y_min, y_max)

/-- `InterpolationContext.from_densities`: builds the context from a grid
(`_colormodes.py` lines 53-62). -/
def InterpolationContext.from_densities (densities : Densities) :
    Except Err InterpolationContext :=
  match get_xy_extrema densities with
  | .error e => .error e
  | .ok (x_min, x_max, _, _) =>
      .ok { densities := densities
            n_rows := densities.length
            n_traces := (densities.map List.length).sum
            x_min := x_min
            x_max := x_max }

/-- `_interpolate_row_index` (lines 74-78):
`[((n_rows - 1) - ith_row) / (n_rows - 1)] * len(row)` for each enumerated row. -/
def _interpolate_row_index (ctx : InterpolationContext) : Except Err (List (List ℚ)) :=
  mapME
    (fun ir =>
      (pydiv (((ctx.n_rows : ℚ) - 1) - (ir.1 : ℚ)) ((ctx.n_rows : ℚ) - 1)).map
        (fun p => List.replicate ir.2.length p))
    ctx.densities.enum

/-- The loop of `_interpolate_trace_index` (lines 81-90): `k` is the running
`ith_trace` counter, incremented once per trace in row-major order. -/
def traceIndexLoop (nt : ℚ) : ℕ → List DensityRow → Except Err (List (List ℚ))
  | _, [] => .ok []
  | k, row :: rest =>
      match mapME (fun j => pydiv ((nt - 1) - ((k + j : ℕ) : ℚ)) (nt - 1))
          (List.range row.length) with
      | .error e => .error e
      | .ok prow =>
          match traceIndexLoop nt (k + row.length) rest with
          | .error e => .error e
          | .ok prest => .ok (prow :: prest)

/-- `_interpolate_trace_index` (lines 81-90). -/
def _interpolate_trace_index (ctx : InterpolationContext) : Except Err (List (List ℚ)) :=
  traceIndexLoop (ctx.n_traces : ℚ) 0 ctx.densities

/-- `_interpolate_trace_index_row_wise` (lines 93-97):
`((len(row) - 1) - i) / (len(row) - 1)` for `i in range(len(row))`, per row. -/
def _interpolate_trace_index_row_wise (ctx : InterpolationContext) :
    Except Err (List (List ℚ)) :=
  mapME
    (fun row =>
      mapME (fun i : ℕ => pydiv (((row.length : ℚ) - 1) - (i : ℚ)) ((row.length : ℚ) - 1))
        (List.range row.length))
    ctx.densities

/-- `sum(_mul(x, y))` for a trace: Σ xᵢ·yᵢ. -/
def traceWeightedSum (t : Trace) : ℚ := (t.map (fun p => p.1 * p.2)).sum

/-- `sum(y)` for a trace: Σ yᵢ, the trace's total y-mass. -/
def traceMass (t : Trace) : ℚ := (t.map Prod.snd).sum

/-- The total weighted mean Σ(x·y)/Σ(y) of a trace, as a total `ℚ` function
(used only to state theorems; the embedded code uses `traceMeanE`). -/
def traceMean (t : Trace) : ℚ := traceWeightedSum t / traceMass t

/-- The per-trace body of the mean-based strategies: `x, y = zip(*trace)` raises
`ValueError` on an empty trace, then `sum(_mul(x, y)) / sum(y)` divides. -/
def traceMeanE (t : Trace) : Except Err ℚ :=
  if t = [] then .error .valueError
  else pydiv (traceWeightedSum t) (traceMass t)

/-- Modelled from the spec: `normalise_min_max` lives in `ridgeplot._utils`, which
is not under `src/`.  Per spec §4.2, min-max normalisation maps `val` to
`(val - min_) / (max_ - min_)`, failing with a division error when `max_ == min_`. -/
def normalise_min_max (val min_ max_ : ℚ) : Except Err ℚ :=
  pydiv (val - min_) (max_ - min_)

/-- The per-trace body of `_interpolate_mean_minmax` (lines 104-108). -/
def meanMinmaxTrace (x_min x_max : ℚ) (t : Trace) : Except Err ℚ :=
  match traceMeanE t with
  | .error e => .error e
  | .ok m => normalise_min_max m x_min x_max

/-- `_interpolate_mean_minmax` (lines 100-110). -/
def _interpolate_mean_minmax (ctx : InterpolationContext) : Except Err (List (List ℚ)) :=
  mapME (fun row => mapME (meanMinmaxTrace ctx.x_min ctx.x_max) row) ctx.densities

/-- `_interpolate_mean_means` (lines 113-125): first pass computes all trace
means; `min_mean`/`max_mean` are `min([min(row) for row in means])` and the
`max` analogue; the second pass min-max normalises every mean against them. -/
def _interpolate_mean_means (ctx : InterpolationContext) : Except Err (List (List ℚ)) :=
  match mapME (fun row => mapME traceMeanE row) ctx.densities with
  | .error e => .error e
  | .ok means =>
      match mapME pymin means with
      | .error e => .error e
      | .ok rowMins =>
          match pymin rowMins with
          | .error e => .error e
          | .ok min_mean =>
              match mapME pymax means with
              | .error e => .error e
              | .ok rowMaxs =>
                  match pymax rowMaxs with
                  | .error e => .error e
                  | .ok max_mean =>
                      mapME
                        (fun row =>
                          mapME (fun m => normalise_min_max m min_mean max_mean) row)
                        means

/-- A colour scale: ordered (position, colour) stops (`ColorScale` in
`ridgeplot._colors`; positions in [0,1], colours abstracted as strings). -/
abbrev ColorScale := List (ℚ × String)

/-- The `colorscale` argument of `compute_trace_colors`:
`ColorScale | Collection[Color] | str` (spec §4.3's three accepted forms). -/
inductive ColorScaleInput where
  /-- A named palette identifier. -/
  | named (s : String) : ColorScaleInput
  /-- A flat ordered sequence of colours, implicitly evenly spaced. -/
  | flat (cs : List String) : ColorScaleInput
  /-- An explicit sequence of (position, colour) stops. -/
  | explicitScale (stops : ColorScale) : ColorScaleInput
deriving DecidableEq, Repr

/-- Modelled from the spec: the named-palette registry of `ridgeplot._colors` is
not under `src/`; spec §6 treats it as a fixed mapping from identifier to a
built-in colour sequence, consumed as a black box.  A representative fixed
registry (a Viridis-like 2-stop palette, spec §8) stands in for it. -/
def PALETTE_REGISTRY : List (String × List String) :=
  [("Viridis", ["#440154", "#FDE725"])]

/-- Modelled from the spec: the flat-sequence branch of colour-scale
normalisation (`ridgeplot._colors`, not under `src/`).  Per spec §4.3 a flat
ordered sequence of colours gets evenly spaced positions `i/(len-1)`, a
single-colour input maps to positions 0 and 1 duplicated, and an empty
sequence is an invalid-input error. -/
def normaliseFlat (cs : List String) : Except Err ColorScale :=
  match cs with
  | [] => .error .invalidColorscale
  | [c] => .ok [(0, c), (1, c)]
  | _ => .ok (cs.enum.map (fun ic => (((ic.1 : ℚ)) / ((cs.length : ℚ) - 1), ic.2)))

/-- `b && chain` check that a position list is strictly increasing. -/
def chainIncreasing : List ℚ → Bool
  | [] => true
  | [_] => true
  | a :: b :: rest => decide (a < b) && chainIncreasing (b :: rest)

/-- Modelled from the spec: `normalise_colorscale` lives in `ridgeplot._colors`,
which is not under `src/`.  Per spec §4.3 it resolves a named identifier through
the registry (failing on an unknown name), spaces a flat colour sequence evenly,
and validates an explicit (position, colour) sequence — non-empty, strictly
increasing positions, first exactly 0.0 and last exactly 1.0 — returning it
unchanged; every violation is an invalid-input error. -/
def normalise_colorscale (input : ColorScaleInput) : Except Err ColorScale :=
  match input with
  | .named s =>
      match PALETTE_REGISTRY.lookup s with
      | some cs => normaliseFlat cs
      | none => .error .invalidColorscale
  | .flat cs => normaliseFlat cs
  | .explicitScale stops =>
      match stops.head?, stops.getLast? with
      | some s0, some sN =>
          if s0.1 = 0 ∧ sN.1 = 1 ∧ chainIncreasing (stops.map Prod.fst) = true
          then .ok stops
          else .error .invalidColorscale
      | _, _ => .error .invalidColorscale

/-- An interpolated colour: the bracketing stops' colours and the fractional
offset between them.  (Colour-channel blending itself happens in
`ridgeplot._colors`, outside `src/`; the bracketing data determines it.) -/
structure BlendedColor where
  lo : String
  hi : String
  frac : ℚ
deriving DecidableEq, Repr

/-- An output colour cell: the interpolated colour plus the optional alpha
channel applied to it. -/
structure OutColor where
  base : BlendedColor
  alpha : Option ℚ
deriving DecidableEq, Repr

/-- Scan consecutive stop pairs for the first pair bracketing `p`. -/
def findBracket : ColorScale → ℚ → Option ((ℚ × String) × (ℚ × String))
  | a :: b :: rest, p =>
      if a.1 ≤ p ∧ p ≤ b.1 then some (a, b) else findBracket (b :: rest) p
  | _, _ => none

/-- Modelled from the spec: `interpolate_color` lives in `ridgeplot._colors`,
which is not under `src/`.  Per spec §4.4: a position outside [0,1] is an
invalid-input error; exact boundary matches return the corresponding endpoint
colour unmodified; otherwise the bracketing pair of stops is found and the
colour is the channel-wise blend at fractional offset
`(p - pos_lo)/(pos_hi - pos_lo)` (0 when the positions coincide) — the blend
is recorded as a `BlendedColor` since channel arithmetic is out of scope. -/
def interpolate_color (scale : ColorScale) (p : ℚ) : Except Err BlendedColor :=
  if p < 0 ∨ 1 < p then .error .invalidInterpolant
  else
    match scale.head?, scale.getLast? with
    | some s0, some sN =>
        if p = s0.1 then .ok ⟨s0.2, s0.2, 0⟩
        else if p = sN.1 then .ok ⟨sN.2, sN.2, 0⟩
        else
          match findBracket scale p with
          | some (lo, hi) =>
              .ok ⟨lo.2, hi.2, if hi.1 = lo.1 then 0 else (p - lo.1) / (hi.1 - lo.1)⟩
          | none => .error .invalidInterpolant
    | _, _ => .error .invalidColorscale

/-- Modelled from the spec: `apply_alpha` lives in `ridgeplot._colors`, which is
not under `src/`.  Per spec §4.4 it attaches the given alpha channel to the
colour; parsing of raw colour strings (its failure mode) cannot fail on the
structured colours produced by `interpolate_color`. -/
def apply_alpha (c : BlendedColor) (a : ℚ) : OutColor := ⟨c, some a⟩

/-- The `_get_color` closure of `compute_trace_colors` (lines 138-142). -/
def getColor (colorscale : ColorScale) (coloralpha : Option ℚ) (p : ℚ) :
    Except Err OutColor :=
  match interpolate_color colorscale p with
  | .error e => .error e
  | .ok c =>
      match coloralpha with
      | some a => .ok (apply_alpha c a)
      | none => .ok ⟨c, none⟩

/-- The keys of `COLORMODE_MAPS` (lines 155-161), in source order. -/
def COLORMODE_NAMES : List String :=
  ["row-index", "trace-index", "trace-index-row-wise", "mean-minmax", "mean-means"]

/-- `COLORMODE_MAPS` (lines 155-161) as a lookup from colormode name to
interpolation function. -/
def COLORMODE_MAPS (mode : String) :
    Option (InterpolationContext → Except Err (List (List ℚ))) :=
  if mode = "row-index" then some _interpolate_row_index
  else if mode = "trace-index" then some _interpolate_trace_index
  else if mode = "trace-index-row-wise" then some _interpolate_trace_index_row_wise
  else if mode = "mean-minmax" then some _interpolate_mean_minmax
  else if mode = "mean-means" then some _interpolate_mean_means
  else none

/-- `compute_trace_colors` (lines 128-152), in source statement order: the
colour scale is normalised first (line 134), the colormode is validated after
that (lines 144-148, raising a `ValueError` that enumerates the valid options),
then the selected strategy runs and every interpolant is mapped through
`_get_color`. -/
def compute_trace_colors (colorscale : ColorScaleInput) (colormode : String)
    (coloralpha : Option ℚ) (interpolation_ctx : InterpolationContext) :
    Except Err (List (List OutColor)) :=
  match normalise_colorscale colorscale with
  | .error e => .error e
  | .ok sc =>
      match COLORMODE_MAPS colormode with
      | none => .error (.invalidColormode COLORMODE_NAMES)
      | some interpolate_func =>
          match interpolate_func interpolation_ctx with
          | .error e => .error e
          | .ok interpolants =>
              mapME (fun row => mapME (getColor sc coloralpha) row) interpolants

/-- The pure grid computed by the trace-index loop when no division fails:
row starting at global trace index `k` maps trace `j` to
`((nt - 1) - (k + j)) / (nt - 1)`. -/
def traceIndexGrid (nt : ℚ) : ℕ → List DensityRow → List (List ℚ)
  | _, [] => []
  | k, row :: rest =>
      (List.range row.length).map
        (fun j => ((nt - 1) - ((k + j : ℕ) : ℚ)) / (nt - 1))
        :: traceIndexGrid nt (k + row.length) rest

/-- The per-row interpolants of the row-wise strategy, as a function of the row
length only. -/
def rowWisePositions (n : ℕ) : List ℚ :=
  (List.range n).map (fun i : ℕ => (((n : ℚ) - 1) - (i : ℚ)) / ((n : ℚ) - 1))

/-- What spec §4.3 guarantees of every normalised colour scale: at least two
stops, first position exactly 0, last position exactly 1. -/
def CanonicalScale (sc : ColorScale) : Prop :=
  2 ≤ sc.length ∧ (∃ s0, sc.head? = some s0 ∧ s0.1 = 0) ∧
    ∃ sN, sc.getLast? = some sN ∧ sN.1 = 1

/-- The data-model invariant of spec §3 for a densities grid: at least one row,
every row has at least one trace, every trace at least one point, and every
y-value is non-negative (mass weights). -/
def ValidDensities (d : Densities) : Prop :=
  d ≠ [] ∧ (∀ row ∈ d, row ≠ []) ∧ (∀ row ∈ d, ∀ t ∈ row, t ≠ []) ∧
    ∀ row ∈ d, ∀ t ∈ row, ∀ p ∈ t, 0 ≤ p.2

/-! ### Helper lemmas about the embedding combinators -/

theorem pydiv_ok {a b y : ℚ} : pydiv a b = .ok y ↔ b ≠ 0 ∧ y = a / b := by
  unfold pydiv
  split
  · simp_all
  · rename_i hb
    constructor
    · intro h
      injection h with h
      exact ⟨hb, h.symm⟩
    · rintro ⟨-, rfl⟩
      rfl

theorem pydiv_zero {a : ℚ} : pydiv a 0 = .error .zeroDivision := by
  simp [pydiv]

theorem mapME_ok_forall2 {α β : Type} {f : α → Except Err β} :
    ∀ {l : List α} {r : List β}, mapME f l = .ok r →
      List.Forall₂ (fun x y => f x = .ok y) l r
  | [], r, h => by
      simp only [mapME] at h
      injection h with h
      subst h
      exact .nil
  | a :: rest, r, h => by
      simp only [mapME] at h
      cases ha : f a with
      | error e => rw [ha] at h; cases h
      | ok b =>
          rw [ha] at h
          cases hrest : mapME f rest with
          | error e => rw [hrest] at h; cases h
          | ok bs =>
              rw [hrest] at h
              injection h with h
              subst h
              exact .cons ha (mapME_ok_forall2 hrest)

theorem forall2_mapME_ok {α β : Type} {f : α → Except Err β} :
    ∀ {l : List α} {r : List β}, List.Forall₂ (fun x y => f x = .ok y) l r →
      mapME f l = .ok r
  | [], [], .nil => rfl
  | a :: rest, b :: bs, .cons ha hrest => by
      simp only [mapME, ha, forall2_mapME_ok hrest]

theorem mapME_ok_of_forall {α β : Type} {f : α → Except Err β} {g : α → β}
    {l : List α} (h : ∀ x ∈ l, f x = .ok (g x)) : mapME f l = .ok (l.map g) := by
  refine forall2_mapME_ok ?_
  induction l with
  | nil => exact .nil
  | cons a rest ih =>
      exact .cons (h a (by simp)) (ih (fun x hx => h x (by simp [hx])))

theorem forall2_eq_map {α β : Type} {g : α → β} :
    ∀ {l : List α} {r : List β}, List.Forall₂ (fun x y => y = g x) l r → r = l.map g
  | [], [], .nil => rfl
  | _ :: _, _ :: _, .cons h hrest => by
      simp only [List.map_cons, h, forall2_eq_map hrest]

theorem forall2_mem_right {α β : Type} {R : α → β → Prop} :
    ∀ {l : List α} {r : List β}, List.Forall₂ R l r → ∀ y ∈ r, ∃ x ∈ l, R x y
  | _, _, .nil => by intro y hy; cases hy
  | _, _, .cons hab hrest => by
      intro y hy
      rcases List.mem_cons.1 hy with rfl | hy'
      · exact ⟨_, by simp, hab⟩
      · rcases forall2_mem_right hrest y hy' with ⟨x, hx, hR⟩
        exact ⟨x, by simp [hx], hR⟩

theorem forall2_mem_left {α β : Type} {R : α → β → Prop} :
    ∀ {l : List α} {r : List β}, List.Forall₂ R l r → ∀ x ∈ l, ∃ y ∈ r, R x y
  | _, _, .nil => by intro x hx; cases hx
  | _, _, .cons hab hrest => by
      intro x hx
      rcases List.mem_cons.1 hx with rfl | hx'
      · exact ⟨_, by simp, hab⟩
      · rcases forall2_mem_left hrest x hx' with ⟨y, hy, hR⟩
        exact ⟨y, by simp [hy], hR⟩

theorem mapME_ok_eq_map {α β : Type} {f : α → Except Err β} {g : α → β} :
    ∀ {l : List α} {r : List β}, mapME f l = .ok r →
      (∀ x ∈ l, ∀ y, f x = .ok y → y = g x) → r = l.map g
  | [], r, h, _ => by
      simp only [mapME] at h
      injection h with h
      simp [← h]
  | a :: rest, r, h, hg => by
      simp only [mapME] at h
      cases ha : f a with
      | error e => rw [ha] at h; cases h
      | ok b =>
          rw [ha] at h
          cases hrest : mapME f rest with
          | error e => rw [hrest] at h; cases h
          | ok bs =>
              rw [hrest] at h
              injection h with h
              subst h
              have h1 := hg a (by simp) b ha
              have h2 := mapME_ok_eq_map hrest (fun x hx => hg x (by simp [hx]))
              simp [h1, h2]

theorem mapME_ok_length {α β : Type} {f : α → Except Err β} {l : List α}
    {r : List β} (h : mapME f l = .ok r) : r.length = l.length :=
  (List.Forall₂.length_eq (mapME_ok_forall2 h)).symm

theorem mapME_ok_mem {α β : Type} {f : α → Except Err β} {l : List α}
    {r : List β} (h : mapME f l = .ok r) : ∀ y ∈ r, ∃ x ∈ l, f x = .ok y :=
  forall2_mem_right (mapME_ok_forall2 h)

theorem mapME_ok_mem_left {α β : Type} {f : α → Except Err β} {l : List α}
    {r : List β} (h : mapME f l = .ok r) : ∀ x ∈ l, ∃ y ∈ r, f x = .ok y :=
  forall2_mem_left (mapME_ok_forall2 h)

theorem mapME_error_unique {α β : Type} {f : α → Except Err β} {e : Err} :
    ∀ {l : List α}, (∀ x ∈ l, (∃ y, f x = .ok y) ∨ f x = .error e) →
      (∃ x ∈ l, f x = .error e) → mapME f l = .error e
  | [], _, hbad => by simp at hbad
  | a :: rest, hall, hbad => by
      rcases hall a (by simp) with ⟨b, hb⟩ | hb
      · have hrest : mapME f rest = .error e := by
          refine mapME_error_unique (fun x hx => hall x (by simp [hx])) ?_
          rcases hbad with ⟨x, hx, hfx⟩
          rcases List.mem_cons.1 hx with rfl | hx'
          · rw [hfx] at hb; cases hb
          · exact ⟨x, hx', hfx⟩
        simp only [mapME, hb, hrest]
      · simp only [mapME, hb]

theorem foldl_min_init (l : List ℚ) : ∀ a : ℚ, l.foldl min a ≤ a := by
  induction l with
  | nil => intro a; simp
  | cons b rest ih =>
      intro a
      rw [List.foldl_cons]
      exact le_trans (ih (min a b)) (min_le_left a b)

theorem foldl_min_le {x : ℚ} {l : List ℚ} : ∀ {a : ℚ}, x ∈ a :: l → l.foldl min a ≤ x := by
  induction l with
  | nil =>
      intro a hx
      simp only [List.mem_cons, List.not_mem_nil, or_false] at hx
      subst hx
      simp
  | cons b rest ih =>
      intro a hx
      rw [List.foldl_cons]
      rcases List.mem_cons.1 hx with rfl | hx'
      · exact le_trans (foldl_min_init rest (min x b)) (min_le_left x b)
      · rcases List.mem_cons.1 hx' with rfl | h2
        · exact le_trans (foldl_min_init rest (min a x)) (min_le_right a x)
        · exact ih (List.mem_cons_of_mem _ h2)

theorem foldl_min_mem {l : List ℚ} : ∀ {a : ℚ}, l.foldl min a ∈ a :: l := by
  induction l with
  | nil => intro a; simp
  | cons b rest ih =>
      intro a
      rw [List.foldl_cons]
      rcases List.mem_cons.1 (ih (a := min a b)) with heq | hmem
      · rw [heq]
        rcases min_choice a b with h1 | h1 <;> rw [h1]
        · exact List.mem_cons_self _ _
        · exact List.mem_cons_of_mem _ (List.mem_cons_self _ _)
      · exact List.mem_cons_of_mem _ (List.mem_cons_of_mem _ hmem)

theorem foldl_max_init (l : List ℚ) : ∀ a : ℚ, a ≤ l.foldl max a := by
  induction l with
  | nil => intro a; simp
  | cons b rest ih =>
      intro a
      rw [List.foldl_cons]
      exact le_trans (le_max_left a b) (ih (max a b))

theorem le_foldl_max {x : ℚ} {l : List ℚ} : ∀ {a : ℚ}, x ∈ a :: l → x ≤ l.foldl max a := by
  induction l with
  | nil =>
      intro a hx
      simp only [List.mem_cons, List.not_mem_nil, or_false] at hx
      subst hx
      simp
  | cons b rest ih =>
      intro a hx
      rw [List.foldl_cons]
      rcases List.mem_cons.1 hx with rfl | hx'
      · exact le_trans (le_max_left x b) (foldl_max_init rest (max x b))
      · rcases List.mem_cons.1 hx' with rfl | h2
        · exact le_trans (le_max_right a x) (foldl_max_init rest (max a x))
        · exact ih (List.mem_cons_of_mem _ h2)

theorem foldl_max_mem {l : List ℚ} : ∀ {a : ℚ}, l.foldl max a ∈ a :: l := by
  induction l with
  | nil => intro a; simp
  | cons b rest ih =>
      intro a
      rw [List.foldl_cons]
      rcases List.mem_cons.1 (ih (a := max a b)) with heq | hmem
      · rw [heq]
        rcases max_choice a b with h1 | h1 <;> rw [h1]
        · exact List.mem_cons_self _ _
        · exact List.mem_cons_of_mem _ (List.mem_cons_self _ _)
      · exact List.mem_cons_of_mem _ (List.mem_cons_of_mem _ hmem)

theorem pymin_ok {l : List ℚ} {m : ℚ} (h : pymin l = .ok m) :
    m ∈ l ∧ ∀ x ∈ l, m ≤ x := by
  cases l with
  | nil => cases h
  | cons a rest =>
      simp only [pymin] at h
      injection h with h
      subst h
      exact ⟨foldl_min_mem, fun x hx => foldl_min_le hx⟩

theorem pymax_ok {l : List ℚ} {m : ℚ} (h : pymax l = .ok m) :
    m ∈ l ∧ ∀ x ∈ l, x ≤ m := by
  cases l with
  | nil => cases h
  | cons a rest =>
      simp only [pymax] at h
      injection h with h
      subst h
      exact ⟨foldl_max_mem, fun x hx => le_foldl_max hx⟩

/-! ### Facts about the interpolation context builder -/

theorem get_xy_extrema_ok {d : Densities} {xm xM ym yM : ℚ}
    (h : get_xy_extrema d = .ok (xm, xM, ym, yM)) :
    (∀ row ∈ d, ∀ t ∈ row, ∀ p ∈ t, xm ≤ p.1 ∧ p.1 ≤ xM) ∧ xm ≤ xM ∧
      (∃ row ∈ d, ∃ t ∈ row, ∃ p ∈ t, p.1 = xm) ∧
      (∃ row ∈ d, ∃ t ∈ row, ∃ p ∈ t, p.1 = xM) := by
  unfold get_xy_extrema at h
  by_cases hcond : (d = [] ∨ ∃ row ∈ d, row = [])
  · rw [if_pos hcond] at h; cases h
  rw [if_neg hcond] at h
  cases hmin : pymin (((d.map List.flatten).flatten).map Prod.fst) with
  | error e => rw [hmin] at h; cases h
  | ok v1 =>
  rw [hmin] at h
  cases hmax : pymax (((d.map List.flatten).flatten).map Prod.fst) with
  | error e => rw [hmax] at h; cases h
  | ok v2 =>
  rw [hmax] at h
  cases hymin : pymin (((d.map List.flatten).flatten).map Prod.snd) with
  | error e => rw [hymin] at h; cases h
  | ok v3 =>
  rw [hymin] at h
  cases hymax : pymax (((d.map List.flatten).flatten).map Prod.snd) with
  | error e => rw [hymax] at h; cases h
  | ok v4 =>
  rw [hymax] at h
  injection h with h
  injection h with h1 h
  injection h with h2 h
  injection h with h3 h4
  subst h1
  subst h2
  have hmem : ∀ q : ℚ × ℚ, (∃ row ∈ d, ∃ t ∈ row, q ∈ t) ↔
      q ∈ (d.map List.flatten).flatten := by
    intro q
    simp only [List.mem_flatten, List.mem_map]
    constructor
    · rintro ⟨row, hrow, t, ht, hq⟩
      exact ⟨row.flatten, ⟨row, hrow, rfl⟩, List.mem_flatten.2 ⟨t, ht, hq⟩⟩
    · rintro ⟨l, ⟨row, hrow, rfl⟩, hq⟩
      rcases List.mem_flatten.1 hq with ⟨t, ht, hq⟩
      exact ⟨row, hrow, t, ht, hq⟩
  obtain ⟨hminmem, hminle⟩ := pymin_ok hmin
  obtain ⟨hmaxmem, hmaxle⟩ := pymax_ok hmax
  refine ⟨?_, ?_, ?_, ?_⟩
  · intro row hrow t ht p hp
    have hx : p.1 ∈ ((d.map List.flatten).flatten).map Prod.fst :=
      List.mem_map.2 ⟨p, (hmem p).1 ⟨row, hrow, t, ht, hp⟩, rfl⟩
    exact ⟨hminle _ hx, hmaxle _ hx⟩
  · exact hmaxle _ hminmem
  · rcases List.mem_map.1 hminmem with ⟨q, hq, hq1⟩
    rcases (hmem q).2 hq with ⟨row, hrow, t, ht, hqt⟩
    exact ⟨row, hrow, t, ht, q, hqt, hq1⟩
  · rcases List.mem_map.1 hmaxmem with ⟨q, hq, hq1⟩
    rcases (hmem q).2 hq with ⟨row, hrow, t, ht, hqt⟩
    exact ⟨row, hrow, t, ht, q, hqt, hq1⟩

theorem from_densities_ok {d : Densities} {ctx : InterpolationContext}
    (h : InterpolationContext.from_densities d = .ok ctx) :
    ctx.densities = d ∧ ctx.n_rows = d.length ∧
      ctx.n_traces = (d.map List.length).sum ∧
      (∀ row ∈ d, ∀ t ∈ row, ∀ p ∈ t, ctx.x_min ≤ p.1 ∧ p.1 ≤ ctx.x_max) ∧
      ctx.x_min ≤ ctx.x_max ∧
      (∃ row ∈ d, ∃ t ∈ row, ∃ p ∈ t, p.1 = ctx.x_min) ∧
      (∃ row ∈ d, ∃ t ∈ row, ∃ p ∈ t, p.1 = ctx.x_max) := by
  unfold InterpolationContext.from_densities at h
  cases hx : get_xy_extrema d with
  | error e => rw [hx] at h; cases h
  | ok q =>
      obtain ⟨xm, xM, ym, yM⟩ := q
      rw [hx] at h
      injection h with h
      subst h
      obtain ⟨hb, hle, hemin, hemax⟩ := get_xy_extrema_ok hx
      exact ⟨rfl, rfl, rfl, hb, hle, hemin, hemax⟩

/-! ### Characterisation of the row-index strategy -/

theorem except_map_ok {α β : Type} {f : α → β} {x : Except Err α} {y : β}
    (h : x.map f = .ok y) : ∃ a, x = .ok a ∧ y = f a := by
  cases x with
  | error e => cases h
  | ok a =>
      refine ⟨a, rfl, ?_⟩
      injection h with h
      exact h.symm

theorem row_index_ok_eq {ctx : InterpolationContext} {ps : List (List ℚ)}
    (h : _interpolate_row_index ctx = .ok ps) :
    ps = ctx.densities.enum.map
      (fun ir => List.replicate ir.2.length
        ((((ctx.n_rows : ℚ) - 1) - (ir.1 : ℚ)) / ((ctx.n_rows : ℚ) - 1))) := by
  refine mapME_ok_eq_map h ?_
  intro ir _ y hy
  obtain ⟨a, ha, hya⟩ := except_map_ok hy
  obtain ⟨-, ha2⟩ := pydiv_ok.1 ha
  rw [hya, ha2]

theorem row_index_ok_ne {ctx : InterpolationContext} {ps : List (List ℚ)}
    (h : _interpolate_row_index ctx = .ok ps) (hne : ctx.densities ≠ []) :
    ((ctx.n_rows : ℚ) - 1) ≠ 0 := by
  obtain ⟨i0, r0, hr0⟩ : ∃ i0 r0, (i0, r0) ∈ ctx.densities.enum := by
    cases hd : ctx.densities with
    | nil => exact absurd hd hne
    | cons a l => exact ⟨0, a, by simp [hd, List.enum]⟩
  obtain ⟨y, -, hy⟩ := mapME_ok_mem_left h _ hr0
  obtain ⟨a, ha, -⟩ := except_map_ok hy
  exact (pydiv_ok.1 ha).1

theorem row_index_shape {ctx : InterpolationContext} {ps : List (List ℚ)}
    (h : _interpolate_row_index ctx = .ok ps) :
    ps.map List.length = ctx.densities.map List.length := by
  rw [row_index_ok_eq h, List.map_map]
  have : (List.length ∘ fun ir : ℕ × DensityRow =>
      List.replicate ir.2.length
        ((((ctx.n_rows : ℚ) - 1) - (ir.1 : ℚ)) / ((ctx.n_rows : ℚ) - 1))) =
      (fun ir : ℕ × DensityRow => ir.2.length) := by
    funext ir
    simp
  rw [this]
  have h2 : (fun ir : ℕ × DensityRow => ir.2.length) =
      (List.length ∘ Prod.snd) := rfl
  rw [h2, ← List.map_map, List.enum_map_snd]

/-! ### Characterisation of the trace-index strategies -/

theorem traceIndexLoop_ok_eq {nt : ℚ} :
    ∀ {rows : List DensityRow} {k : ℕ} {ps : List (List ℚ)},
      traceIndexLoop nt k rows = .ok ps → ps = traceIndexGrid nt k rows
  | [], k, ps, h => by
      simp only [traceIndexLoop] at h
      injection h with h
      simp [traceIndexGrid, ← h]
  | row :: rest, k, ps, h => by
      simp only [traceIndexLoop] at h
      cases h1 : mapME (fun j => pydiv ((nt - 1) - ((k + j : ℕ) : ℚ)) (nt - 1))
          (List.range row.length) with
      | error e => rw [h1] at h; cases h
      | ok prow =>
          rw [h1] at h
          cases h2 : traceIndexLoop nt (k + row.length) rest with
          | error e => rw [h2] at h; cases h
          | ok prest =>
              rw [h2] at h
              injection h with h
              subst h
              have e1 : prow = (List.range row.length).map
                  (fun j => ((nt - 1) - ((k + j : ℕ) : ℚ)) / (nt - 1)) :=
                mapME_ok_eq_map h1 (fun j _ y hy => (pydiv_ok.1 hy).2)
              rw [traceIndexGrid, e1, traceIndexLoop_ok_eq h2]

theorem traceIndexGrid_shape (nt : ℚ) :
    ∀ (rows : List DensityRow) (k : ℕ),
      (traceIndexGrid nt k rows).map List.length = rows.map List.length
  | [], _ => rfl
  | row :: rest, k => by
      simp [traceIndexGrid, traceIndexGrid_shape nt rest (k + row.length)]

theorem trace_index_shape {ctx : InterpolationContext} {ps : List (List ℚ)}
    (h : _interpolate_trace_index ctx = .ok ps) :
    ps.map List.length = ctx.densities.map List.length := by
  rw [traceIndexLoop_ok_eq h, traceIndexGrid_shape]

theorem traceIndexLoop_bounds {NT : ℕ} :
    ∀ {rows : List DensityRow} {k : ℕ} {ps : List (List ℚ)},
      traceIndexLoop (NT : ℚ) k rows = .ok ps →
      k + (rows.map List.length).sum ≤ NT →
      ∀ prow ∈ ps, ∀ p ∈ prow, 0 ≤ p ∧ p ≤ 1
  | [], k, ps, h, _ => by
      simp only [traceIndexLoop] at h
      injection h with h
      subst h
      intro prow hprow
      cases hprow
  | row :: rest, k, ps, h, hinv => by
      simp only [traceIndexLoop] at h
      cases h1 : mapME (fun j => pydiv (((NT : ℚ) - 1) - ((k + j : ℕ) : ℚ)) ((NT : ℚ) - 1))
          (List.range row.length) with
      | error e => rw [h1] at h; cases h
      | ok prow0 =>
          rw [h1] at h
          cases h2 : traceIndexLoop (NT : ℚ) (k + row.length) rest with
          | error e => rw [h2] at h; cases h
          | ok prest =>
              rw [h2] at h
              injection h with h
              subst h
              intro prow hprow p hp
              rcases List.mem_cons.1 hprow with rfl | hprow'
              · obtain ⟨j, hj, hfj⟩ := mapME_ok_mem h1 p hp
                obtain ⟨hne, hpv⟩ := pydiv_ok.1 hfj
                have hjlt : j < row.length := List.mem_range.1 hj
                have hkj : k + j + 1 ≤ NT := by
                  have hsum : row.length ≤ (List.map List.length (row :: rest)).sum := by
                    simp
                  omega
                have hNT1 : (1 : ℚ) ≤ (NT : ℚ) := by
                  exact_mod_cast Nat.one_le_iff_ne_zero.2 (by omega)
                have hkjq : ((k + j : ℕ) : ℚ) ≤ (NT : ℚ) - 1 := by
                  have : ((k + j : ℕ) : ℚ) ≤ ((NT - 1 : ℕ) : ℚ) := by
                    exact_mod_cast (by omega : k + j ≤ NT - 1)
                  rwa [Nat.cast_sub (by omega), Nat.cast_one] at this
                have hpos : 0 < (NT : ℚ) - 1 :=
                  lt_of_le_of_ne (by linarith) (Ne.symm hne)
                subst hpv
                constructor
                · exact div_nonneg (by linarith) (le_of_lt hpos)
                · rw [div_le_one hpos]
                  have : (0 : ℚ) ≤ ((k + j : ℕ) : ℚ) := Nat.cast_nonneg _
                  linarith
              · exact traceIndexLoop_bounds h2 (by simp at hinv ⊢; omega) prow hprow' p hp

/-! ### Characterisation of the row-wise trace-index strategy -/

theorem row_wise_ok_eq {ctx : InterpolationContext} {ps : List (List ℚ)}
    (h : _interpolate_trace_index_row_wise ctx = .ok ps) :
    ps = ctx.densities.map (fun row => rowWisePositions row.length) := by
  refine mapME_ok_eq_map h ?_
  intro row _ y hy
  exact mapME_ok_eq_map hy (fun i _ z hz => (pydiv_ok.1 hz).2)

theorem row_wise_shape {ctx : InterpolationContext} {ps : List (List ℚ)}
    (h : _interpolate_trace_index_row_wise ctx = .ok ps) :
    ps.map List.length = ctx.densities.map List.length := by
  rw [row_wise_ok_eq h, List.map_map]
  refine List.map_congr_left (fun row _ => ?_)
  simp [rowWisePositions]

theorem rowWisePositions_getLast {n : ℕ} (hn : 1 ≤ n) :
    (rowWisePositions n).getLast? = some 0 := by
  unfold rowWisePositions
  obtain ⟨m, rfl⟩ : ∃ m, n = m + 1 := ⟨n - 1, by omega⟩
  rw [List.range_succ, List.map_append, List.map_singleton, List.getLast?_concat]
  have : (((m + 1 : ℕ) : ℚ) - 1) - ((m : ℕ) : ℚ) = 0 := by
    push_cast
    ring
  rw [this, zero_div]

theorem row_wise_bounds {ctx : InterpolationContext} {ps : List (List ℚ)}
    (h : _interpolate_trace_index_row_wise ctx = .ok ps) :
    ∀ prow ∈ ps, ∀ p ∈ prow, 0 ≤ p ∧ p ≤ 1 := by
  intro prow hprow p hp
  obtain ⟨row, -, hfrow⟩ := mapME_ok_mem h prow hprow
  obtain ⟨i, hi, hfi⟩ := mapME_ok_mem hfrow p hp
  obtain ⟨hne, hpv⟩ := pydiv_ok.1 hfi
  have hilt : i < row.length := List.mem_range.1 hi
  have h1 : (1 : ℚ) ≤ (row.length : ℚ) := by
    exact_mod_cast Nat.one_le_iff_ne_zero.2 (by omega)
  have hiq : (i : ℚ) ≤ (row.length : ℚ) - 1 := by
    have : ((i : ℕ) : ℚ) ≤ ((row.length - 1 : ℕ) : ℚ) := by
      exact_mod_cast (by omega : i ≤ row.length - 1)
    rwa [Nat.cast_sub (by omega), Nat.cast_one] at this
  have hpos : 0 < (row.length : ℚ) - 1 := lt_of_le_of_ne (by linarith) (Ne.symm hne)
  subst hpv
  constructor
  · exact div_nonneg (by linarith) (le_of_lt hpos)
  · rw [div_le_one hpos]
    have : (0 : ℚ) ≤ (i : ℚ) := Nat.cast_nonneg _
    linarith

theorem row_index_bounds {ctx : InterpolationContext} {ps : List (List ℚ)}
    (hn : ctx.n_rows = ctx.densities.length)
    (h : _interpolate_row_index ctx = .ok ps) :
    ∀ prow ∈ ps, ∀ p ∈ prow, 0 ≤ p ∧ p ≤ 1 := by
  intro prow hprow p hp
  obtain ⟨ir, hir, hfir⟩ := mapME_ok_mem h prow hprow
  obtain ⟨a, ha, hya⟩ := except_map_ok hfir
  obtain ⟨hne, hav⟩ := pydiv_ok.1 ha
  subst hya
  rcases List.mem_replicate.1 hp with ⟨-, rfl⟩
  subst hav
  have hilt : ir.1 < ctx.densities.length := by
    have := List.mem_enumFrom hir
    omega
  rw [hn] at hne ⊢
  set n := ctx.densities.length with hdefn
  have h1 : (1 : ℚ) ≤ (n : ℚ) := by
    exact_mod_cast Nat.one_le_iff_ne_zero.2 (by omega)
  have hiq : (ir.1 : ℚ) ≤ (n : ℚ) - 1 := by
    have : ((ir.1 : ℕ) : ℚ) ≤ ((n - 1 : ℕ) : ℚ) := by
      exact_mod_cast (by omega : ir.1 ≤ n - 1)
    rwa [Nat.cast_sub (by omega), Nat.cast_one] at this
  have hpos : 0 < (n : ℚ) - 1 := lt_of_le_of_ne (by linarith) (Ne.symm hne)
  constructor
  · exact div_nonneg (by linarith) (le_of_lt hpos)
  · rw [div_le_one hpos]
    have : (0 : ℚ) ≤ (ir.1 : ℚ) := Nat.cast_nonneg _
    linarith

/-! ### Characterisation of the mean-based strategies -/

theorem forall2_shape {α β : Type} {R : List α → List β → Prop}
    (hR : ∀ x y, R x y → y.length = x.length) :
    ∀ {l : List (List α)} {r : List (List β)}, List.Forall₂ R l r →
      r.map List.length = l.map List.length
  | _, _, .nil => rfl
  | _, _, .cons hab hrest => by
      simp only [List.map_cons, hR _ _ hab, forall2_shape hR hrest]

theorem mapME2_shape {α β : Type} {f : α → Except Err β} {l : List (List α)}
    {r : List (List β)} (h : mapME (fun row => mapME f row) l = .ok r) :
    r.map List.length = l.map List.length :=
  forall2_shape (fun _ _ hok => mapME_ok_length hok) (mapME_ok_forall2 h)

theorem traceMeanE_ok {t : Trace} {m : ℚ} (h : traceMeanE t = .ok m) :
    t ≠ [] ∧ traceMass t ≠ 0 ∧ m = traceMean t := by
  unfold traceMeanE at h
  split at h
  · cases h
  · rename_i hne
    obtain ⟨h1, h2⟩ := pydiv_ok.1 h
    exact ⟨hne, h1, h2⟩

theorem traceMean_bounds {t : Trace} {lo hi : ℚ}
    (hmass : traceMass t ≠ 0) (hy : ∀ p ∈ t, 0 ≤ p.2)
    (hx : ∀ p ∈ t, lo ≤ p.1 ∧ p.1 ≤ hi) :
    lo ≤ traceMean t ∧ traceMean t ≤ hi := by
  have hmass0 : 0 ≤ traceMass t := by
    refine List.sum_nonneg ?_
    intro y hy'
    rcases List.mem_map.1 hy' with ⟨p, hp, rfl⟩
    exact hy p hp
  have hmasspos : 0 < traceMass t := lt_of_le_of_ne hmass0 (Ne.symm hmass)
  have hupper : traceWeightedSum t ≤ hi * traceMass t := by
    unfold traceWeightedSum traceMass
    rw [show hi * (t.map Prod.snd).sum = (t.map (fun p => hi * p.2)).sum from
      (List.sum_map_mul_left t Prod.snd hi).symm]
    refine List.sum_le_sum ?_
    intro p hp
    exact mul_le_mul_of_nonneg_right (hx p hp).2 (hy p hp)
  have hlower : lo * traceMass t ≤ traceWeightedSum t := by
    unfold traceWeightedSum traceMass
    rw [show lo * (t.map Prod.snd).sum = (t.map (fun p => lo * p.2)).sum from
      (List.sum_map_mul_left t Prod.snd lo).symm]
    refine List.sum_le_sum ?_
    intro p hp
    exact mul_le_mul_of_nonneg_right (hx p hp).1 (hy p hp)
  unfold traceMean
  constructor
  · rw [le_div_iff₀ hmasspos]
    exact hlower
  · rw [div_le_iff₀ hmasspos]
    exact hupper

theorem meanMinmaxTrace_ok {x_min x_max : ℚ} {t : Trace} {v : ℚ}
    (h : meanMinmaxTrace x_min x_max t = .ok v) :
    t ≠ [] ∧ traceMass t ≠ 0 ∧ x_max - x_min ≠ 0 ∧
      v = (traceMean t - x_min) / (x_max - x_min) := by
  unfold meanMinmaxTrace at h
  cases hm : traceMeanE t with
  | error e => rw [hm] at h; cases h
  | ok m =>
      rw [hm] at h
      unfold normalise_min_max at h
      obtain ⟨h1, h2, h3⟩ := traceMeanE_ok hm
      obtain ⟨h4, h5⟩ := pydiv_ok.1 h
      exact ⟨h1, h2, h4, by rw [h5, h3]⟩

theorem mean_minmax_ok_eq {ctx : InterpolationContext} {ps : List (List ℚ)}
    (h : _interpolate_mean_minmax ctx = .ok ps) :
    ps = ctx.densities.map (fun row => row.map
      (fun t => (traceMean t - ctx.x_min) / (ctx.x_max - ctx.x_min))) := by
  refine mapME_ok_eq_map h ?_
  intro row _ y hy
  exact mapME_ok_eq_map hy (fun t _ v hv => (meanMinmaxTrace_ok hv).2.2.2)

theorem mean_minmax_shape {ctx : InterpolationContext} {ps : List (List ℚ)}
    (h : _interpolate_mean_minmax ctx = .ok ps) :
    ps.map List.length = ctx.densities.map List.length :=
  mapME2_shape h

theorem mean_minmax_bounds {ctx : InterpolationContext} {ps : List (List ℚ)}
    (hy : ∀ row ∈ ctx.densities, ∀ t ∈ row, ∀ p ∈ t, 0 ≤ p.2)
    (hx : ∀ row ∈ ctx.densities, ∀ t ∈ row, ∀ p ∈ t, ctx.x_min ≤ p.1 ∧ p.1 ≤ ctx.x_max)
    (h : _interpolate_mean_minmax ctx = .ok ps) :
    ∀ prow ∈ ps, ∀ p ∈ prow, 0 ≤ p ∧ p ≤ 1 := by
  intro prow hprow p hp
  obtain ⟨row, hrow, hfrow⟩ := mapME_ok_mem h prow hprow
  obtain ⟨t, ht, hft⟩ := mapME_ok_mem hfrow p hp
  obtain ⟨hne, hmass, hden, hval⟩ := meanMinmaxTrace_ok hft
  obtain ⟨hlo, hhi⟩ := traceMean_bounds hmass
      (fun q hq => hy row hrow t ht q hq) (fun q hq => hx row hrow t ht q hq)
  have hpos : 0 < ctx.x_max - ctx.x_min :=
    lt_of_le_of_ne (by linarith) (Ne.symm hden)
  subst hval
  constructor
  · exact div_nonneg (by linarith) hpos.le
  · rw [div_le_one hpos]
    linarith

theorem mean_means_ok_parts {ctx : InterpolationContext} {ps : List (List ℚ)}
    (h : _interpolate_mean_means ctx = .ok ps) :
    ∃ means rowMins min_mean rowMaxs max_mean,
      mapME (fun row => mapME traceMeanE row) ctx.densities = .ok means ∧
      mapME pymin means = .ok rowMins ∧ pymin rowMins = .ok min_mean ∧
      mapME pymax means = .ok rowMaxs ∧ pymax rowMaxs = .ok max_mean ∧
      mapME (fun row => mapME (fun m => normalise_min_max m min_mean max_mean) row)
        means = .ok ps := by
  unfold _interpolate_mean_means at h
  cases h1 : mapME (fun row => mapME traceMeanE row) ctx.densities with
  | error e => rw [h1] at h; cases h
  | ok means =>
  rw [h1] at h
  dsimp only at h
  cases h2 : mapME pymin means with
  | error e => rw [h2] at h; cases h
  | ok rowMins =>
  rw [h2] at h
  dsimp only at h
  cases h3 : pymin rowMins with
  | error e => rw [h3] at h; cases h
  | ok min_mean =>
  rw [h3] at h
  dsimp only at h
  cases h4 : mapME pymax means with
  | error e => rw [h4] at h; cases h
  | ok rowMaxs =>
  rw [h4] at h
  dsimp only at h
  cases h5 : pymax rowMaxs with
  | error e => rw [h5] at h; cases h
  | ok max_mean =>
  rw [h5] at h
  dsimp only at h
  exact ⟨means, rowMins, min_mean, rowMaxs, max_mean, rfl, h2, h3, h4, h5, h⟩

theorem means_lower_bound {means : List (List ℚ)} {rowMins : List ℚ} {min_mean : ℚ}
    (h2 : mapME pymin means = .ok rowMins) (h3 : pymin rowMins = .ok min_mean) :
    ∀ row ∈ means, ∀ m ∈ row, min_mean ≤ m := by
  intro row hrow m hm
  obtain ⟨rm, hrmmem, hrm⟩ := mapME_ok_mem_left h2 row hrow
  have h4 := (pymin_ok hrm).2 m hm
  have h5 := (pymin_ok h3).2 rm hrmmem
  linarith

theorem means_upper_bound {means : List (List ℚ)} {rowMaxs : List ℚ} {max_mean : ℚ}
    (h4 : mapME pymax means = .ok rowMaxs) (h5 : pymax rowMaxs = .ok max_mean) :
    ∀ row ∈ means, ∀ m ∈ row, m ≤ max_mean := by
  intro row hrow m hm
  obtain ⟨rm, hrmmem, hrm⟩ := mapME_ok_mem_left h4 row hrow
  have h6 := (pymax_ok hrm).2 m hm
  have h7 := (pymax_ok h5).2 rm hrmmem
  linarith

theorem mean_means_bounds {ctx : InterpolationContext} {ps : List (List ℚ)}
    (h : _interpolate_mean_means ctx = .ok ps) :
    ∀ prow ∈ ps, ∀ p ∈ prow, 0 ≤ p ∧ p ≤ 1 := by
  obtain ⟨means, rowMins, min_mean, rowMaxs, max_mean, h1, h2, h3, h4, h5, h6⟩ :=
    mean_means_ok_parts h
  intro prow hprow p hp
  obtain ⟨mrow, hmrow, hfrow⟩ := mapME_ok_mem h6 prow hprow
  obtain ⟨m, hm, hfm⟩ := mapME_ok_mem hfrow p hp
  unfold normalise_min_max at hfm
  obtain ⟨hden, hval⟩ := pydiv_ok.1 hfm
  have hlo : min_mean ≤ m := means_lower_bound h2 h3 mrow hmrow m hm
  have hhi : m ≤ max_mean := means_upper_bound h4 h5 mrow hmrow m hm
  have hpos : 0 < max_mean - min_mean := lt_of_le_of_ne (by linarith) (Ne.symm hden)
  subst hval
  constructor
  · exact div_nonneg (by linarith) hpos.le
  · rw [div_le_one hpos]
    linarith

theorem mean_means_shape {ctx : InterpolationContext} {ps : List (List ℚ)}
    (h : _interpolate_mean_means ctx = .ok ps) :
    ps.map List.length = ctx.densities.map List.length := by
  obtain ⟨means, rowMins, min_mean, rowMaxs, max_mean, h1, h2, h3, h4, h5, h6⟩ :=
    mean_means_ok_parts h
  rw [mapME2_shape h6, mapME2_shape h1]

/-! ### Canonical colour scales and interpolation success -/

theorem enumFrom_getLast? {α : Type} :
    ∀ (l : List α) (k : ℕ),
      (List.enumFrom k l).getLast? = l.getLast?.map (fun x => (k + (l.length - 1), x))
  | [], _ => rfl
  | [a], k => by simp [List.enumFrom]
  | a :: b :: t, k => by
      have ih := enumFrom_getLast? (b :: t) (k + 1)
      have e1 : List.enumFrom k (a :: b :: t) =
          (k, a) :: List.enumFrom (k + 1) (b :: t) := rfl
      obtain ⟨z, zs, hz⟩ : ∃ z zs, List.enumFrom (k + 1) (b :: t) = z :: zs :=
        ⟨(k + 1, b), _, rfl⟩
      rw [e1, hz, List.getLast?_cons_cons, ← hz, ih, List.getLast?_cons_cons]
      cases hz2 : (b :: t).getLast? with
      | none => rfl
      | some z2 =>
          dsimp only [Option.map]
          have : k + 1 + ((b :: t).length - 1) = k + ((a :: b :: t).length - 1) := by
            simp only [List.length_cons]
            omega
          rw [this]

theorem normaliseFlat_canonical {cs : List String} {sc : ColorScale}
    (h : normaliseFlat cs = .ok sc) : CanonicalScale sc := by
  match cs with
  | [] => cases h
  | [c] =>
      injection h with h
      subst h
      exact ⟨by simp, ⟨(0, c), rfl, rfl⟩, ⟨(1, c), rfl, rfl⟩⟩
  | c1 :: c2 :: rest =>
      injection h with h
      subst h
      have h2n : 2 ≤ (c1 :: c2 :: rest).length := by simp
      refine ⟨by simp [List.enum], ?_, ?_⟩
      · exact ⟨(((0 : ℕ) : ℚ) / (((c1 :: c2 :: rest).length : ℚ) - 1), c1), rfl,
          by simp⟩
      · have hlast : (c1 :: c2 :: rest).getLast? =
            some ((c1 :: c2 :: rest).getLast (by simp)) :=
          List.getLast?_eq_getLast _ _
        have henum : (((c1 :: c2 :: rest).enum.map
            (fun ic => (((ic.1 : ℚ)) / (((c1 :: c2 :: rest).length : ℚ) - 1),
              ic.2))).getLast?) =
            some (((((0 + ((c1 :: c2 :: rest).length - 1) : ℕ)) : ℚ) /
                (((c1 :: c2 :: rest).length : ℚ) - 1),
              (c1 :: c2 :: rest).getLast (by simp))) := by
          rw [List.getLast?_map, show (c1 :: c2 :: rest).enum =
            List.enumFrom 0 (c1 :: c2 :: rest) from rfl, enumFrom_getLast?, hlast]
          rfl
        refine ⟨_, henum, ?_⟩
        dsimp only
        have hcast : ((((0 + ((c1 :: c2 :: rest).length - 1) : ℕ)) : ℚ)) =
            (((c1 :: c2 :: rest).length : ℚ)) - 1 := by
          rw [Nat.zero_add, Nat.cast_sub (by omega), Nat.cast_one]
        rw [hcast]
        refine div_self ?_
        have : (2 : ℚ) ≤ (((c1 :: c2 :: rest).length : ℚ)) := by exact_mod_cast h2n
        linarith

theorem normalise_colorscale_canonical {input : ColorScaleInput} {sc : ColorScale}
    (h : normalise_colorscale input = .ok sc) : CanonicalScale sc := by
  match input with
  | .named s =>
      unfold normalise_colorscale at h
      dsimp only at h
      cases hl : PALETTE_REGISTRY.lookup s with
      | none => rw [hl] at h; cases h
      | some cs =>
          rw [hl] at h
          dsimp only at h
          exact normaliseFlat_canonical h
  | .flat cs =>
      unfold normalise_colorscale at h
      dsimp only at h
      exact normaliseFlat_canonical h
  | .explicitScale stops =>
      unfold normalise_colorscale at h
      dsimp only at h
      cases hh : stops.head? with
      | none => rw [hh] at h; dsimp only at h; cases h
      | some s0 =>
      rw [hh] at h
      cases hl : stops.getLast? with
      | none => rw [hl] at h; dsimp only at h; cases h
      | some sN =>
      rw [hl] at h
      dsimp only at h
      split at h
      · rename_i hcond
        injection h with h
        subst h
        obtain ⟨h0, h1, -⟩ := hcond
        refine ⟨?_, ⟨s0, hh, h0⟩, ⟨sN, hl, h1⟩⟩
        match stops with
        | [] => cases hh
        | [s] =>
            injection hh with hh
            have hs : sN = s := by
              simp only [List.getLast?] at hl
              injection hl with hl
              exact hl.symm
            subst hh
            subst hs
            rw [h0] at h1
            cases h1
        | a :: b :: t => simp
      · cases h

theorem findBracket_isSome {p : ℚ} :
    ∀ (l : ColorScale) (a sN : ℚ × String),
      (a :: l).getLast? = some sN → l ≠ [] → a.1 ≤ p → p ≤ sN.1 →
      ∃ pr, findBracket (a :: l) p = some pr
  | [], _, _, _, hne, _, _ => absurd rfl hne
  | b :: rest, a, sN, hlast, _, hap, hpN => by
      by_cases hpb : a.1 ≤ p ∧ p ≤ b.1
      · exact ⟨(a, b), by simp [findBracket, hpb]⟩
      · have hblt : b.1 < p := by
          rcases not_and_or.1 hpb with h1 | h1
          · exact absurd hap h1
          · exact lt_of_not_le h1
        match rest with
        | [] =>
            rw [List.getLast?_cons_cons] at hlast
            simp only [List.getLast?] at hlast
            injection hlast with hlast
            subst hlast
            exact absurd hpN (not_le.2 hblt)
        | c :: t =>
            rw [List.getLast?_cons_cons] at hlast
            obtain ⟨pr, hpr⟩ := findBracket_isSome (c :: t) b sN hlast (by simp)
              (le_of_lt hblt) hpN
            exact ⟨pr, by simp only [findBracket, if_neg hpb]; exact hpr⟩

theorem interpolate_color_ok {sc : ColorScale} {p : ℚ}
    (hc : CanonicalScale sc) (h0 : 0 ≤ p) (h1 : p ≤ 1) :
    ∃ c, interpolate_color sc p = .ok c := by
  cases sc with
  | nil =>
      obtain ⟨hlen, -, -⟩ := hc
      simp at hlen
  | cons a tail =>
      obtain ⟨hlen, ⟨s0, hs0, hp0⟩, ⟨sN, hsN, hp1⟩⟩ := hc
      have has0 : s0 = a := by
        injection hs0 with hs0
        exact hs0.symm
      subst has0
      unfold interpolate_color
      rw [if_neg (by push_neg; exact ⟨h0, h1⟩)]
      rw [show (s0 :: tail).head? = some s0 from rfl, hsN]
      dsimp only
      by_cases hps0 : p = s0.1
      · rw [if_pos hps0]
        exact ⟨_, rfl⟩
      rw [if_neg hps0]
      by_cases hpsN : p = sN.1
      · rw [if_pos hpsN]
        exact ⟨_, rfl⟩
      rw [if_neg hpsN]
      have htail : tail ≠ [] := by
        intro ht
        subst ht
        simp at hlen
      obtain ⟨⟨lo, hi⟩, hfb⟩ := findBracket_isSome tail s0 sN hsN htail
        (hp0.symm ▸ h0) (hp1.symm ▸ h1)
      rw [hfb]
      exact ⟨_, rfl⟩

theorem getColor_ok {sc : ColorScale} {alpha : Option ℚ} {p : ℚ}
    (hc : CanonicalScale sc) (h0 : 0 ≤ p) (h1 : p ≤ 1) :
    ∃ c, getColor sc alpha p = .ok c := by
  obtain ⟨c, hcol⟩ := interpolate_color_ok hc h0 h1
  unfold getColor
  rw [hcol]
  cases alpha with
  | none => exact ⟨_, rfl⟩
  | some a => exact ⟨_, rfl⟩

/-! ### Shape-only dependence of the index-based strategies -/

theorem mapME_enumFrom_congr_length {α β : Type} {g : ℕ → ℕ → Except Err β} :
    ∀ {l₁ l₂ : List (List α)} {k : ℕ}, l₁.map List.length = l₂.map List.length →
      mapME (fun ir => g ir.1 ir.2.length) (List.enumFrom k l₁) =
      mapME (fun ir => g ir.1 ir.2.length) (List.enumFrom k l₂)
  | [], [], _, _ => rfl
  | [], _ :: _, _, h => by cases h
  | _ :: _, [], _, h => by cases h
  | a :: l₁, b :: l₂, k, h => by
      injection h with h1 h2
      rw [show List.enumFrom k (a :: l₁) = (k, a) :: List.enumFrom (k + 1) l₁ from rfl,
        show List.enumFrom k (b :: l₂) = (k, b) :: List.enumFrom (k + 1) l₂ from rfl]
      simp only [mapME]
      rw [h1, mapME_enumFrom_congr_length (k := k + 1) h2]

theorem row_index_congr {ctx₁ ctx₂ : InterpolationContext}
    (hn : ctx₁.n_rows = ctx₂.n_rows)
    (hs : ctx₁.densities.map List.length = ctx₂.densities.map List.length) :
    _interpolate_row_index ctx₁ = _interpolate_row_index ctx₂ := by
  unfold _interpolate_row_index
  rw [hn]
  rw [show ctx₁.densities.enum = List.enumFrom 0 ctx₁.densities from rfl,
    show ctx₂.densities.enum = List.enumFrom 0 ctx₂.densities from rfl]
  exact mapME_enumFrom_congr_length
    (g := fun i len =>
      (pydiv (((ctx₂.n_rows : ℚ) - 1) - (i : ℚ)) ((ctx₂.n_rows : ℚ) - 1)).map
        (fun p => List.replicate len p)) hs

theorem traceIndexLoop_congr {nt : ℚ} :
    ∀ {rows₁ rows₂ : List DensityRow} {k : ℕ},
      rows₁.map List.length = rows₂.map List.length →
      traceIndexLoop nt k rows₁ = traceIndexLoop nt k rows₂
  | [], [], _, _ => rfl
  | [], _ :: _, _, h => by cases h
  | _ :: _, [], _, h => by cases h
  | r₁ :: rows₁, r₂ :: rows₂, k, h => by
      injection h with h1 h2
      simp only [traceIndexLoop]
      rw [h1, traceIndexLoop_congr (k := k + r₂.length) h2]

theorem mapME_congr_length {α β : Type} {g : ℕ → Except Err β} :
    ∀ {l₁ l₂ : List (List α)}, l₁.map List.length = l₂.map List.length →
      mapME (fun row => g row.length) l₁ = mapME (fun row => g row.length) l₂
  | [], [], _ => rfl
  | [], _ :: _, h => by cases h
  | _ :: _, [], h => by cases h
  | a :: l₁, b :: l₂, h => by
      injection h with h1 h2
      simp only [mapME]
      rw [h1, mapME_congr_length h2]

theorem row_wise_congr {ctx₁ ctx₂ : InterpolationContext}
    (hs : ctx₁.densities.map List.length = ctx₂.densities.map List.length) :
    _interpolate_trace_index_row_wise ctx₁ = _interpolate_trace_index_row_wise ctx₂ := by
  unfold _interpolate_trace_index_row_wise
  exact mapME_congr_length
    (g := fun n =>
      mapME (fun i : ℕ => pydiv (((n : ℚ) - 1) - (i : ℚ)) ((n : ℚ) - 1))
        (List.range n)) hs

/-! ### The colormode dispatch table -/

theorem colormode_maps_cases {mode : String}
    {f : InterpolationContext → Except Err (List (List ℚ))}
    (h : COLORMODE_MAPS mode = some f) :
    f = _interpolate_row_index ∨ f = _interpolate_trace_index ∨
      f = _interpolate_trace_index_row_wise ∨ f = _interpolate_mean_minmax ∨
      f = _interpolate_mean_means := by
  unfold COLORMODE_MAPS at h
  split_ifs at h
  · injection h with h
    exact .inl h.symm
  · injection h with h
    exact .inr (.inl h.symm)
  · injection h with h
    exact .inr (.inr (.inl h.symm))
  · injection h with h
    exact .inr (.inr (.inr (.inl h.symm)))
  · injection h with h
    exact .inr (.inr (.inr (.inr h.symm)))

theorem colormode_maps_none {mode : String} (h : mode ∉ COLORMODE_NAMES) :
    COLORMODE_MAPS mode = none := by
  simp only [COLORMODE_NAMES, List.mem_cons, List.not_mem_nil, or_false, not_or] at h
  obtain ⟨h1, h2, h3, h4, h5⟩ := h
  simp [COLORMODE_MAPS, h1, h2, h3, h4, h5]

/-! ### Success-propagation lemmas -/

theorem mapME_ok_of_forall_exists {α β : Type} {f : α → Except Err β} :
    ∀ {l : List α}, (∀ x ∈ l, ∃ y, f x = .ok y) →
      ∃ r, mapME f l = .ok r ∧ r.length = l.length
  | [], _ => ⟨[], rfl, rfl⟩
  | a :: rest, h => by
      obtain ⟨b, hb⟩ := h a (by simp)
      obtain ⟨bs, hbs, hlen⟩ := mapME_ok_of_forall_exists (l := rest)
        (fun x hx => h x (by simp [hx]))
      exact ⟨b :: bs, by simp only [mapME, hb, hbs], by simp [hlen]⟩

theorem mapME2_ok_of_forall_exists {α β : Type} {f : α → Except Err β} :
    ∀ {l : List (List α)}, (∀ row ∈ l, ∀ x ∈ row, ∃ y, f x = .ok y) →
      ∃ r, mapME (fun row => mapME f row) l = .ok r ∧
        r.map List.length = l.map List.length
  | [], _ => ⟨[], rfl, rfl⟩
  | row :: rest, h => by
      obtain ⟨prow, hprow, hlen⟩ := mapME_ok_of_forall_exists (h row (by simp))
      obtain ⟨prest, hprest, hshape⟩ := mapME2_ok_of_forall_exists (l := rest)
        (fun r hr => h r (by simp [hr]))
      exact ⟨prow :: prest, by simp only [mapME, hprow, hprest], by simp [hlen, hshape]⟩

theorem mapME_ok_or_error {α β : Type} {f : α → Except Err β} {e : Err} :
    ∀ {l : List α}, (∀ x ∈ l, (∃ y, f x = .ok y) ∨ f x = .error e) →
      (∃ r, mapME f l = .ok r) ∨ mapME f l = .error e
  | [], _ => .inl ⟨[], rfl⟩
  | a :: rest, h => by
      rcases h a (by simp) with ⟨b, hb⟩ | hb
      · rcases mapME_ok_or_error (l := rest) (fun x hx => h x (by simp [hx])) with ⟨r, hr⟩ | hr
        · exact .inl ⟨b :: r, by simp only [mapME, hb, hr]⟩
        · exact .inr (by simp only [mapME, hb, hr])
      · exact .inr (by simp only [mapME, hb])

/-! ### Error behaviour of the mean strategies on degenerate traces -/

theorem traceMeanE_ok_or_zero {t : Trace} (hne : t ≠ []) :
    (∃ m, traceMeanE t = .ok m) ∨ traceMeanE t = .error .zeroDivision := by
  unfold traceMeanE
  rw [if_neg hne]
  by_cases hm : traceMass t = 0
  · right
    unfold pydiv
    rw [if_pos hm]
  · left
    exact ⟨_, by unfold pydiv; rw [if_neg hm]⟩

theorem traceMeanE_zero_mass {t : Trace} (hne : t ≠ []) (hm : traceMass t = 0) :
    traceMeanE t = .error .zeroDivision := by
  unfold traceMeanE
  rw [if_neg hne]
  unfold pydiv
  rw [if_pos hm]

theorem meanMinmaxTrace_ok_or_zero {xm xM : ℚ} {t : Trace} (hne : t ≠ []) :
    (∃ v, meanMinmaxTrace xm xM t = .ok v) ∨
      meanMinmaxTrace xm xM t = .error .zeroDivision := by
  rcases traceMeanE_ok_or_zero hne with ⟨m, hm⟩ | hm
  · by_cases hd : xM - xm = 0
    · right
      unfold meanMinmaxTrace
      rw [hm]
      dsimp only
      unfold normalise_min_max pydiv
      rw [if_pos hd]
    · left
      refine ⟨(m - xm) / (xM - xm), ?_⟩
      unfold meanMinmaxTrace
      rw [hm]
      dsimp only
      unfold normalise_min_max pydiv
      rw [if_neg hd]
  · right
    unfold meanMinmaxTrace
    rw [hm]

theorem meanMinmaxTrace_zero_mass {xm xM : ℚ} {t : Trace} (hne : t ≠ [])
    (hm : traceMass t = 0) : meanMinmaxTrace xm xM t = .error .zeroDivision := by
  unfold meanMinmaxTrace
  rw [traceMeanE_zero_mass hne hm]

/-! ### Claim theorems -/

/-- C7: for the densities grid `[[t1], [t2], [t3]]` (three rows of one trace
each), the trace-index strategy assigns interpolation positions 1, 1/2 and 0 to
the traces with global trace indices 0, 1 and 2 (row-major order). -/
theorem c7_trace_index_three_rows :
    InterpolationContext.from_densities
        [[[((0 : ℚ), (1 : ℚ))]], [[(1, 1)]], [[(2, 1)]]] =
      .ok ⟨[[[(0, 1)]], [[(1, 1)]], [[(2, 1)]]], 3, 3, 0, 2⟩ ∧
    _interpolate_trace_index ⟨[[[((0 : ℚ), (1 : ℚ))]], [[(1, 1)]], [[(2, 1)]]], 3, 3, 0, 2⟩ =
      .ok [[1], [1 / 2], [0]] := by
  constructor
  · norm_num [InterpolationContext.from_densities, get_xy_extrema, pymin, pymax]
    simp
  · norm_num [_interpolate_trace_index, traceIndexLoop, mapME, pydiv, List.range_succ]

/-- C2 counterexample: for the one-row grid `[[trace_A, trace_B]]` the
row-index strategy does not produce a defined interpolation position — the
`0/0` division raises `ZeroDivisionError` — and `compute_trace_colors`
propagates that error instead of returning a colour per trace. -/
theorem c2_counterexample :
    InterpolationContext.from_densities
        [[[((0 : ℚ), (1 : ℚ)), (1, 1)], [(0, 2), (1, 2)]]] =
      .ok ⟨[[[(0, 1), (1, 1)], [(0, 2), (1, 2)]]], 1, 2, 0, 1⟩ ∧
    _interpolate_row_index ⟨[[[(0, 1), (1, 1)], [(0, 2), (1, 2)]]], 1, 2, 0, 1⟩ =
      .error .zeroDivision ∧
    compute_trace_colors (.explicitScale [(0, "red"), (1, "blue")]) "row-index" none
        ⟨[[[(0, 1), (1, 1)], [(0, 2), (1, 2)]]], 1, 2, 0, 1⟩ =
      .error .zeroDivision := by
  refine ⟨?_, ?_, ?_⟩
  · norm_num [InterpolationContext.from_densities, get_xy_extrema, pymin, pymax]
    simp
  · norm_num [_interpolate_row_index, mapME, pydiv, List.enum, List.enumFrom]
    simp [Except.map]
  · norm_num [compute_trace_colors, normalise_colorscale, chainIncreasing,
      COLORMODE_MAPS, _interpolate_row_index, mapME, pydiv, List.enum, List.enumFrom]
    simp [Except.map]
/-- C2 (amended): when the densities grid has exactly one row, the row-index
strategy is not special-cased: `(n_rows - 1) - ith_row) / (n_rows - 1)` is a
`0/0` division that raises `ZeroDivisionError`, and `compute_trace_colors`
with `colormode="row-index"` propagates that error instead of returning
colours. -/
theorem c2_row_index_single_row_raises {d : Densities} {ctx : InterpolationContext}
    (hd : d.length = 1) (hctx : InterpolationContext.from_densities d = .ok ctx) :
    _interpolate_row_index ctx = .error .zeroDivision ∧
    ∀ (scaleIn : ColorScaleInput) (sc : ColorScale) (alpha : Option ℚ),
      normalise_colorscale scaleIn = .ok sc →
      compute_trace_colors scaleIn "row-index" alpha ctx = .error .zeroDivision := by
  obtain ⟨hdd, hnr, -, -, -, -, -⟩ := from_densities_ok hctx
  obtain ⟨row, hrow⟩ := List.length_eq_one.1 hd
  have hn1 : ctx.n_rows = 1 := by rw [hnr, hd]
  have hstrat : _interpolate_row_index ctx = .error .zeroDivision := by
    unfold _interpolate_row_index
    rw [hdd, hrow, hn1]
    rw [show ([row] : Densities).enum = [(0, row)] from rfl]
    simp only [mapME]
    norm_num [pydiv, Except.map]
  refine ⟨hstrat, ?_⟩
  intro scaleIn sc alpha hsc
  unfold compute_trace_colors
  rw [hsc]
  dsimp only
  rw [show COLORMODE_MAPS "row-index" = some _interpolate_row_index from rfl]
  dsimp only
  rw [hstrat]

/-- C6 counterexample: the grid `[[[(0,0),(1,0)]], [[(0,1),(2,1)]]]` has a
first trace of total y-mass 0; both mean-based strategies raise
`ZeroDivisionError` on it rather than producing a defined value. -/
theorem c6_counterexample :
    InterpolationContext.from_densities [[[((0 : ℚ), (0 : ℚ)), (1, 0)]], [[(0, 1), (2, 1)]]] =
      .ok ⟨[[[(0, 0), (1, 0)]], [[(0, 1), (2, 1)]]], 2, 2, 0, 2⟩ ∧
    _interpolate_mean_minmax ⟨[[[(0, 0), (1, 0)]], [[(0, 1), (2, 1)]]], 2, 2, 0, 2⟩ =
      .error .zeroDivision ∧
    _interpolate_mean_means ⟨[[[(0, 0), (1, 0)]], [[(0, 1), (2, 1)]]], 2, 2, 0, 2⟩ =
      .error .zeroDivision := by
  refine ⟨?_, ?_, ?_⟩
  · norm_num [InterpolationContext.from_densities, get_xy_extrema, pymin, pymax]
    simp
  · norm_num [_interpolate_mean_minmax, meanMinmaxTrace, traceMeanE, traceMass,
      traceWeightedSum, normalise_min_max, mapME, pydiv]
    simp
  · norm_num [_interpolate_mean_means, traceMeanE, traceMass, traceWeightedSum,
      normalise_min_max, mapME, pydiv]
    simp

/-- C6 (amended): a trace with zero total y-mass (all traces non-empty) makes
both mean-based strategies fail with `ZeroDivisionError`; the zero-mass case
is not special-cased to a defined output. -/
theorem c6_zero_mass_raises {ctx : InterpolationContext}
    (h1 : ∀ row ∈ ctx.densities, ∀ t ∈ row, t ≠ [])
    (h2 : ∃ row ∈ ctx.densities, ∃ t ∈ row, traceMass t = 0) :
    _interpolate_mean_minmax ctx = .error .zeroDivision ∧
    _interpolate_mean_means ctx = .error .zeroDivision := by
  constructor
  · refine mapME_error_unique ?_ ?_
    · intro row hrow
      exact mapME_ok_or_error (fun t ht => meanMinmaxTrace_ok_or_zero (h1 row hrow t ht))
    · obtain ⟨row, hrow, t, ht, hmass⟩ := h2
      refine ⟨row, hrow, ?_⟩
      exact mapME_error_unique
        (fun q hq => meanMinmaxTrace_ok_or_zero (h1 row hrow q hq))
        ⟨t, ht, meanMinmaxTrace_zero_mass (h1 row hrow t ht) hmass⟩
  · have hstage : mapME (fun row => mapME traceMeanE row) ctx.densities =
        .error .zeroDivision := by
      refine mapME_error_unique ?_ ?_
      · intro row hrow
        exact mapME_ok_or_error (fun t ht => traceMeanE_ok_or_zero (h1 row hrow t ht))
      · obtain ⟨row, hrow, t, ht, hmass⟩ := h2
        exact ⟨row, hrow, mapME_error_unique
          (fun q hq => traceMeanE_ok_or_zero (h1 row hrow q hq))
          ⟨t, ht, traceMeanE_zero_mass (h1 row hrow t ht) hmass⟩⟩
    unfold _interpolate_mean_means
    rw [hstage]

/-- Witness for C2's amended theorem at the concrete one-row grid
`[[trace_A, trace_B]]`. -/
theorem c2_row_index_single_row_raises_witness :
    _interpolate_row_index ⟨[[[((0 : ℚ), (1 : ℚ)), (1, 1)], [(0, 2), (1, 2)]]], 1, 2, 0, 1⟩ =
      .error .zeroDivision ∧
    compute_trace_colors (.explicitScale [(0, "red"), (1, "blue")]) "row-index" none
        ⟨[[[(0, 1), (1, 1)], [(0, 2), (1, 2)]]], 1, 2, 0, 1⟩ =
      .error .zeroDivision := by
  have h := @c2_row_index_single_row_raises
    [[[((0 : ℚ), (1 : ℚ)), (1, 1)], [(0, 2), (1, 2)]]]
    ⟨[[[(0, 1), (1, 1)], [(0, 2), (1, 2)]]], 1, 2, 0, 1⟩
    rfl
    (by norm_num [InterpolationContext.from_densities, get_xy_extrema, pymin, pymax]
        simp)
  exact ⟨h.1, h.2 (.explicitScale [(0, "red"), (1, "blue")]) [(0, "red"), (1, "blue")]
    none (by norm_num [normalise_colorscale, chainIncreasing])⟩

/-- Witness for C6's amended theorem at a concrete grid with one zero-mass
trace. -/
theorem c6_zero_mass_raises_witness :
    _interpolate_mean_minmax ⟨[[[((0 : ℚ), (0 : ℚ)), (1, 0)]], [[(0, 1), (2, 1)]]], 2, 2, 0, 2⟩ =
      .error .zeroDivision ∧
    _interpolate_mean_means ⟨[[[(0, 0), (1, 0)]], [[(0, 1), (2, 1)]]], 2, 2, 0, 2⟩ =
      .error .zeroDivision :=
  c6_zero_mass_raises (by decide)
    ⟨[[(0, 0), (1, 0)]], by decide, [(0, 0), (1, 0)], by decide,
      by norm_num [traceMass]⟩

/-- C3 counterexample: with an invalid colour scale and an unrecognized
colormode, `compute_trace_colors` reports the colour-scale error, not the
colormode error — the colormode check runs after colour-scale normalisation. -/
theorem c3_counterexample :
    compute_trace_colors (.explicitScale []) "bogus-mode" none ⟨[], 0, 0, 0, 0⟩ =
      .error .invalidColorscale ∧
    (Except.error .invalidColorscale : Except Err (List (List OutColor))) ≠
      .error (.invalidColormode COLORMODE_NAMES) :=
  ⟨rfl, by intro h; injection h with h; cases h⟩

/-- C3 (amended): an unrecognized colormode makes `compute_trace_colors` fail
with an invalid-input error enumerating the five valid options, but this
validation runs after the colour scale is normalised: when the colorscale
argument is invalid, its error is reported instead. -/
theorem c3_colormode_validation :
    (∀ (scaleIn : ColorScaleInput) (sc : ColorScale) (mode : String) (alpha : Option ℚ)
        (ctx : InterpolationContext), normalise_colorscale scaleIn = .ok sc →
        mode ∉ COLORMODE_NAMES →
        compute_trace_colors scaleIn mode alpha ctx =
          .error (.invalidColormode COLORMODE_NAMES)) ∧
    ∀ (scaleIn : ColorScaleInput) (mode : String) (alpha : Option ℚ)
        (ctx : InterpolationContext) (e : Err), normalise_colorscale scaleIn = .error e →
        compute_trace_colors scaleIn mode alpha ctx = .error e := by
  constructor
  · intro scaleIn sc mode alpha ctx hsc hmode
    unfold compute_trace_colors
    rw [hsc]
    dsimp only
    rw [colormode_maps_none hmode]
  · intro scaleIn mode alpha ctx e hsc
    unfold compute_trace_colors
    rw [hsc]

/-- Witness for C3's amended theorem: a valid two-stop scale with colormode
"bogus-mode" yields the colormode error; an invalid (empty) explicit scale with
the same unrecognized colormode yields the colorscale error instead. -/
theorem c3_colormode_validation_witness :
    compute_trace_colors (.explicitScale [((0 : ℚ), "red"), (1, "blue")]) "bogus-mode"
        none ⟨[], 0, 0, 0, 0⟩ = .error (.invalidColormode COLORMODE_NAMES) ∧
    compute_trace_colors (.explicitScale []) "bogus-mode" none ⟨[], 0, 0, 0, 0⟩ =
      .error .invalidColorscale :=
  ⟨c3_colormode_validation.1 (.explicitScale [((0 : ℚ), "red"), (1, "blue")])
      [((0 : ℚ), "red"), (1, "blue")] "bogus-mode" none ⟨[], 0, 0, 0, 0⟩
      (by norm_num [normalise_colorscale, chainIncreasing]) (by decide),
   c3_colormode_validation.2 (.explicitScale []) "bogus-mode" none ⟨[], 0, 0, 0, 0⟩
      .invalidColorscale rfl⟩

/-- C8: whenever the trace-index-row-wise strategy succeeds, the last trace of
every non-empty row is assigned interpolation position 0, and the positions of
row `i` depend only on the number of traces in row `i` — not on the contents of
any other row. -/
theorem c8_row_wise_last_zero {ctx : InterpolationContext} {ps : List (List ℚ)}
    (h : _interpolate_trace_index_row_wise ctx = .ok ps) :
    (∀ i row, ctx.densities.get? i = some row → row ≠ [] →
      ∃ prow, ps.get? i = some prow ∧ prow.getLast? = some 0) ∧
    ∀ (ctx' : InterpolationContext) (ps' : List (List ℚ)) (i : ℕ),
      _interpolate_trace_index_row_wise ctx' = .ok ps' →
      (ctx.densities.get? i).map List.length = (ctx'.densities.get? i).map List.length →
      ps.get? i = ps'.get? i := by
  have hch := row_wise_ok_eq h
  constructor
  · intro i row hrow hne
    subst hch
    rw [List.get?_map, hrow]
    refine ⟨_, rfl, ?_⟩
    refine rowWisePositions_getLast ?_
    cases row with
    | nil => exact absurd rfl hne
    | cons a l => simp
  · intro ctx' ps' i h' hlen
    have hch' := row_wise_ok_eq h'
    subst hch
    subst hch'
    rw [List.get?_map, List.get?_map]
    cases hg : ctx.densities.get? i with
    | none =>
        rw [hg] at hlen
        cases hg' : ctx'.densities.get? i with
        | none => rfl
        | some r' => rw [hg'] at hlen; cases hlen
    | some r =>
        rw [hg] at hlen
        cases hg' : ctx'.densities.get? i with
        | none => rw [hg'] at hlen; cases hlen
        | some r' =>
            rw [hg'] at hlen
            dsimp only [Option.map] at hlen ⊢
            injection hlen with hlen
            rw [hlen]

/-- Witness for C8 at a concrete two-row grid with rows of two and three
traces: the second output row ends in position 0. -/
theorem c8_row_wise_last_zero_witness :
    ∃ prow, ([[1, 0], [1, 1 / 2, 0]] : List (List ℚ)).get? 1 = some prow ∧
      prow.getLast? = some 0 :=
  (@c8_row_wise_last_zero
    ⟨[[[((0 : ℚ), (1 : ℚ))], [(1, 1)]],
      [[(0, 1)], [(1, 1)], [(2, 1)]]], 2, 5, 0, 2⟩
    [[1, 0], [1, 1 / 2, 0]]
    (by norm_num [_interpolate_trace_index_row_wise, mapME, pydiv, List.range_succ])).1
    1 [[(0, 1)], [(1, 1)], [(2, 1)]] rfl (by decide)

/-- C4: whenever the mean-minmax strategy succeeds on a context built from a
densities grid, every trace is assigned the min-max normalisation of its
weighted mean Σ(x·y)/Σ(y) against the grid-global `x_min`/`x_max` stored in the
`InterpolationContext` (which are attained extrema over all x-values of the
whole grid, not per-row quantities). -/
theorem c4_mean_minmax_formula {d : Densities} {ctx : InterpolationContext}
    {ps : List (List ℚ)} (hctx : InterpolationContext.from_densities d = .ok ctx)
    (h : _interpolate_mean_minmax ctx = .ok ps) :
    ps = d.map (fun row => row.map
      (fun t => (traceMean t - ctx.x_min) / (ctx.x_max - ctx.x_min))) ∧
    (∀ row ∈ d, ∀ t ∈ row, ∀ p ∈ t, ctx.x_min ≤ p.1 ∧ p.1 ≤ ctx.x_max) ∧
    (∃ row ∈ d, ∃ t ∈ row, ∃ p ∈ t, p.1 = ctx.x_min) ∧
    (∃ row ∈ d, ∃ t ∈ row, ∃ p ∈ t, p.1 = ctx.x_max) := by
  obtain ⟨hdd, -, -, hb, -, hm1, hm2⟩ := from_densities_ok hctx
  refine ⟨?_, hb, hm1, hm2⟩
  rw [← hdd]
  exact mean_minmax_ok_eq h

/-- Witness for C4 at the concrete grid `[[[(0,1),(2,1)]], [[(2,1)]]]`. -/
theorem c4_mean_minmax_formula_witness :
    [[(1 : ℚ) / 2], [1]] =
      ([[[((0 : ℚ), (1 : ℚ)), (2, 1)]], [[(2, 1)]]] : Densities).map (fun row => row.map
        (fun t => (traceMean t - (0 : ℚ)) / ((2 : ℚ) - (0 : ℚ)))) ∧
    (∀ row ∈ ([[[((0 : ℚ), (1 : ℚ)), (2, 1)]], [[(2, 1)]]] : Densities), ∀ t ∈ row,
      ∀ p ∈ t, (0 : ℚ) ≤ p.1 ∧ p.1 ≤ (2 : ℚ)) ∧
    (∃ row ∈ ([[[((0 : ℚ), (1 : ℚ)), (2, 1)]], [[(2, 1)]]] : Densities), ∃ t ∈ row,
      ∃ p ∈ t, p.1 = (0 : ℚ)) ∧
    (∃ row ∈ ([[[((0 : ℚ), (1 : ℚ)), (2, 1)]], [[(2, 1)]]] : Densities), ∃ t ∈ row,
      ∃ p ∈ t, p.1 = (2 : ℚ)) :=
  @c4_mean_minmax_formula
    [[[((0 : ℚ), (1 : ℚ)), (2, 1)]], [[(2, 1)]]]
    ⟨[[[(0, 1), (2, 1)]], [[(2, 1)]]], 2, 2, 0, 2⟩
    [[1 / 2], [1]]
    (by norm_num [InterpolationContext.from_densities, get_xy_extrema, pymin, pymax]
        simp)
    (by norm_num [_interpolate_mean_minmax, meanMinmaxTrace, traceMeanE, traceMass,
          traceWeightedSum, normalise_min_max, mapME, pydiv]
        simp)

/-- C5: whenever the mean-means strategy succeeds, there are bounds
`min_mean`/`max_mean` that are attained weighted trace means of the grid,
bounding the weighted mean of every trace in the grid, and every output is the
min-max normalisation of that trace's weighted mean Σ(x·y)/Σ(y) against them —
so each output depends on the means of all traces (two passes), not on the
global x extrema. -/
theorem c5_mean_means_two_pass {ctx : InterpolationContext} {ps : List (List ℚ)}
    (h : _interpolate_mean_means ctx = .ok ps) :
    ∃ min_mean max_mean,
      (∀ row ∈ ctx.densities, ∀ t ∈ row,
        min_mean ≤ traceMean t ∧ traceMean t ≤ max_mean) ∧
      (∃ row ∈ ctx.densities, ∃ t ∈ row, traceMean t = min_mean) ∧
      (∃ row ∈ ctx.densities, ∃ t ∈ row, traceMean t = max_mean) ∧
      ps = ctx.densities.map (fun row => row.map
        (fun t => (traceMean t - min_mean) / (max_mean - min_mean))) := by
  obtain ⟨means, rowMins, min_mean, rowMaxs, max_mean, h1, h2, h3, h4, h5, h6⟩ :=
    mean_means_ok_parts h
  have hmeans : means = ctx.densities.map (fun row => row.map traceMean) :=
    mapME_ok_eq_map h1 (fun row _ y hy =>
      mapME_ok_eq_map hy (fun t _ m hm => (traceMeanE_ok hm).2.2))
  refine ⟨min_mean, max_mean, ?_, ?_, ?_, ?_⟩
  · intro row hrow t ht
    have hmem : row.map traceMean ∈ means := by
      rw [hmeans]
      exact List.mem_map.2 ⟨row, hrow, rfl⟩
    have hmm : traceMean t ∈ row.map traceMean := List.mem_map.2 ⟨t, ht, rfl⟩
    exact ⟨means_lower_bound h2 h3 _ hmem _ hmm, means_upper_bound h4 h5 _ hmem _ hmm⟩
  · obtain ⟨mrow, hmrow, hpm⟩ := mapME_ok_mem h2 min_mean (pymin_ok h3).1
    rw [hmeans] at hmrow
    obtain ⟨row, hrow, rfl⟩ := List.mem_map.1 hmrow
    obtain ⟨t, ht, htm⟩ := List.mem_map.1 (pymin_ok hpm).1
    exact ⟨row, hrow, t, ht, htm⟩
  · obtain ⟨mrow, hmrow, hpm⟩ := mapME_ok_mem h4 max_mean (pymax_ok h5).1
    rw [hmeans] at hmrow
    obtain ⟨row, hrow, rfl⟩ := List.mem_map.1 hmrow
    obtain ⟨t, ht, htm⟩ := List.mem_map.1 (pymax_ok hpm).1
    exact ⟨row, hrow, t, ht, htm⟩
  · have hps : ps = means.map (fun mrow => mrow.map
        (fun m => (m - min_mean) / (max_mean - min_mean))) :=
      mapME_ok_eq_map h6 (fun mrow _ y hy =>
        mapME_ok_eq_map hy (fun m _ v hv => by
          unfold normalise_min_max at hv
          exact (pydiv_ok.1 hv).2))
    rw [hps, hmeans, List.map_map]
    refine List.map_congr_left (fun row _ => ?_)
    simp [List.map_map, Function.comp]

/-- Witness for C5 at the concrete grid `[[[(0,1)], [(1,1)]], [[(2,1)]]]`. -/
theorem c5_mean_means_two_pass_witness :
    ∃ min_mean max_mean,
      (∀ row ∈ ([[[((0 : ℚ), (1 : ℚ))], [(1, 1)]], [[(2, 1)]]] : Densities), ∀ t ∈ row,
        min_mean ≤ traceMean t ∧ traceMean t ≤ max_mean) ∧
      (∃ row ∈ ([[[((0 : ℚ), (1 : ℚ))], [(1, 1)]], [[(2, 1)]]] : Densities), ∃ t ∈ row,
        traceMean t = min_mean) ∧
      (∃ row ∈ ([[[((0 : ℚ), (1 : ℚ))], [(1, 1)]], [[(2, 1)]]] : Densities), ∃ t ∈ row,
        traceMean t = max_mean) ∧
      ([[0, 1 / 2], [1]] : List (List ℚ)) =
        ([[[((0 : ℚ), (1 : ℚ))], [(1, 1)]], [[(2, 1)]]] : Densities).map (fun row =>
          row.map (fun t => (traceMean t - min_mean) / (max_mean - min_mean))) :=
  @c5_mean_means_two_pass
    ⟨[[[(0, 1)], [(1, 1)]], [[(2, 1)]]], 2, 3, 0, 2⟩
    [[0, 1 / 2], [1]]
    (by norm_num [_interpolate_mean_means, traceMeanE, traceMass, traceWeightedSum,
          normalise_min_max, mapME, pydiv, pymin, pymax])

/-- C9: the three index-based strategies depend only on the shape of the grid —
for two densities grids with equal per-row trace counts, each strategy produces
identical results on the contexts built from them, whatever the (x, y) values
stored in the traces. -/
theorem c9_index_strategies_shape_only {d₁ d₂ : Densities}
    {ctx₁ ctx₂ : InterpolationContext}
    (hs : d₁.map List.length = d₂.map List.length)
    (h₁ : InterpolationContext.from_densities d₁ = .ok ctx₁)
    (h₂ : InterpolationContext.from_densities d₂ = .ok ctx₂) :
    _interpolate_row_index ctx₁ = _interpolate_row_index ctx₂ ∧
    _interpolate_trace_index ctx₁ = _interpolate_trace_index ctx₂ ∧
    _interpolate_trace_index_row_wise ctx₁ = _interpolate_trace_index_row_wise ctx₂ := by
  obtain ⟨hdd₁, hnr₁, hnt₁, -, -, -, -⟩ := from_densities_ok h₁
  obtain ⟨hdd₂, hnr₂, hnt₂, -, -, -, -⟩ := from_densities_ok h₂
  have hlen : d₁.length = d₂.length := by
    have h := congrArg List.length hs
    simpa using h
  have hsum : (d₁.map List.length).sum = (d₂.map List.length).sum := by rw [hs]
  refine ⟨?_, ?_, ?_⟩
  · refine row_index_congr ?_ ?_
    · rw [hnr₁, hnr₂, hlen]
    · rw [hdd₁, hdd₂]
      exact hs
  · unfold _interpolate_trace_index
    rw [hnt₁, hnt₂, hsum, hdd₁, hdd₂]
    exact traceIndexLoop_congr hs
  · refine row_wise_congr ?_
    rw [hdd₁, hdd₂]
    exact hs

/-- Witness for C9: two one-trace-per-row grids of the same shape but entirely
different point data get identical interpolant grids under all three
index-based strategies. -/
theorem c9_index_strategies_shape_only_witness :
    _interpolate_row_index ⟨[[[((0 : ℚ), (1 : ℚ))]], [[(1, 1)]]], 2, 2, 0, 1⟩ =
      _interpolate_row_index ⟨[[[((5 : ℚ), (2 : ℚ))]], [[(9, 3)]]], 2, 2, 5, 9⟩ ∧
    _interpolate_trace_index ⟨[[[((0 : ℚ), (1 : ℚ))]], [[(1, 1)]]], 2, 2, 0, 1⟩ =
      _interpolate_trace_index ⟨[[[((5 : ℚ), (2 : ℚ))]], [[(9, 3)]]], 2, 2, 5, 9⟩ ∧
    _interpolate_trace_index_row_wise ⟨[[[((0 : ℚ), (1 : ℚ))]], [[(1, 1)]]], 2, 2, 0, 1⟩ =
      _interpolate_trace_index_row_wise ⟨[[[((5 : ℚ), (2 : ℚ))]], [[(9, 3)]]], 2, 2, 5, 9⟩ :=
  @c9_index_strategies_shape_only
    [[[((0 : ℚ), (1 : ℚ))]], [[(1, 1)]]]
    [[[((5 : ℚ), (2 : ℚ))]], [[(9, 3)]]]
    ⟨[[[(0, 1)]], [[(1, 1)]]], 2, 2, 0, 1⟩
    ⟨[[[(5, 2)]], [[(9, 3)]]], 2, 2, 5, 9⟩
    (by decide)
    (by norm_num [InterpolationContext.from_densities, get_xy_extrema, pymin, pymax]
        simp)
    (by norm_num [InterpolationContext.from_densities, get_xy_extrema, pymin, pymax]
        simp)

/-- C10: on a grid in which every row holds exactly one trace and there are at
least two rows, the row-index and trace-index strategies agree: the global
trace index of each trace equals its row index and the trace count equals the
row count. -/
theorem c10_row_index_eq_trace_index {d : Densities} {ctx : InterpolationContext}
    (h1 : ∀ row ∈ d, row.length = 1) (h2 : 2 ≤ d.length)
    (hctx : InterpolationContext.from_densities d = .ok ctx) :
    _interpolate_row_index ctx = _interpolate_trace_index ctx := by
  obtain ⟨hdd, hnr, hnt, -, -, -, -⟩ := from_densities_ok hctx
  have hsum : (d.map List.length).sum = d.length := by
    rw [List.map_congr_left h1]
    rw [show ((fun _ : DensityRow => 1) = Function.const DensityRow 1) from rfl]
    rw [List.map_const, List.sum_replicate, smul_eq_mul, mul_one]
  have hne : ((d.length : ℚ) - 1) ≠ 0 := by
    refine sub_ne_zero.2 ?_
    have : d.length ≠ 1 := by omega
    exact_mod_cast this
  have hpd : ∀ a : ℚ, pydiv a ((d.length : ℚ) - 1) =
      .ok (a / ((d.length : ℚ) - 1)) := by
    intro a
    unfold pydiv
    rw [if_neg hne]
  have hri : _interpolate_row_index ctx = .ok (d.enum.map (fun ir =>
      List.replicate ir.2.length
        ((((d.length : ℚ) - 1) - (ir.1 : ℚ)) / ((d.length : ℚ) - 1)))) := by
    unfold _interpolate_row_index
    rw [hdd, hnr]
    refine mapME_ok_of_forall ?_
    intro ir _
    rw [hpd]
    rfl
  have hti : ∀ (rows : List DensityRow) (k : ℕ), (∀ row ∈ rows, row.length = 1) →
      traceIndexLoop ((d.length : ℚ)) k rows = .ok ((List.enumFrom k rows).map
        (fun ir => [(((d.length : ℚ) - 1) - (ir.1 : ℚ)) / ((d.length : ℚ) - 1)])) := by
    intro rows
    induction rows with
    | nil => intro k _; rfl
    | cons row rest ih =>
        intro k hall
        have hrl : row.length = 1 := hall row (by simp)
        simp only [traceIndexLoop, hrl]
        rw [show List.range 1 = [0] from rfl]
        simp only [mapME, hpd, ih (k + 1) (fun r hr => hall r (by simp [hr]))]
        rw [show List.enumFrom k (row :: rest) =
          (k, row) :: List.enumFrom (k + 1) rest from rfl]
        simp
  have hti' : _interpolate_trace_index ctx = .ok ((List.enumFrom 0 d).map
      (fun ir => [(((d.length : ℚ) - 1) - (ir.1 : ℚ)) / ((d.length : ℚ) - 1)])) := by
    unfold _interpolate_trace_index
    rw [hdd, hnt, hsum]
    exact hti d 0 h1
  rw [hri, hti']
  rw [show d.enum = List.enumFrom 0 d from rfl]
  refine congrArg Except.ok ?_
  refine List.map_congr_left (fun ir hir => ?_)
  obtain ⟨hm1, hm2, hm3⟩ := List.mem_enumFrom hir
  have hlt : ir.1 - 0 < d.length := by omega
  have hrl : ir.2.length = 1 := by
    rw [hm3]
    exact h1 _ (List.getElem_mem hlt)
  rw [hrl, List.replicate_one]

/-- Witness for C10 at a concrete three-row, one-trace-per-row grid. -/
theorem c10_row_index_eq_trace_index_witness :
    _interpolate_row_index ⟨[[[((0 : ℚ), (1 : ℚ))]], [[(1, 1)]], [[(2, 1)]]], 3, 3, 0, 2⟩ =
      _interpolate_trace_index
        ⟨[[[((0 : ℚ), (1 : ℚ))]], [[(1, 1)]], [[(2, 1)]]], 3, 3, 0, 2⟩ :=
  c10_row_index_eq_trace_index
    (d := [[[((0 : ℚ), (1 : ℚ))]], [[(1, 1)]], [[(2, 1)]]])
    (by decide) (by decide)
    (by norm_num [InterpolationContext.from_densities, get_xy_extrema, pymin, pymax]
        simp)

/-- C1: for every valid densities grid, every recognized colormode whose
strategy succeeds on the grid's context, and every colour scale that
normalises, `compute_trace_colors` succeeds and the returned colours grid has
the same row count and the same per-row entry counts as the densities grid. -/
theorem c1_compute_trace_colors_shape {d : Densities} {ctx : InterpolationContext}
    {mode : String} {f : InterpolationContext → Except Err (List (List ℚ))}
    {ps : List (List ℚ)} {scaleIn : ColorScaleInput} {sc : ColorScale}
    {alpha : Option ℚ}
    (hd : ValidDensities d)
    (hctx : InterpolationContext.from_densities d = .ok ctx)
    (hmode : COLORMODE_MAPS mode = some f)
    (hps : f ctx = .ok ps)
    (hsc : normalise_colorscale scaleIn = .ok sc) :
    ∃ colors, compute_trace_colors scaleIn mode alpha ctx = .ok colors ∧
      colors.map List.length = d.map List.length := by
  obtain ⟨hdne, hrne, htne, hy⟩ := hd
  obtain ⟨hdd, hnr, hnt, hb, hle, -, -⟩ := from_densities_ok hctx
  have hkey : (∀ prow ∈ ps, ∀ p ∈ prow, 0 ≤ p ∧ p ≤ 1) ∧
      ps.map List.length = ctx.densities.map List.length := by
    rcases colormode_maps_cases hmode with rfl | rfl | rfl | rfl | rfl
    · exact ⟨row_index_bounds (by rw [hnr, hdd]) hps, row_index_shape hps⟩
    · refine ⟨?_, trace_index_shape hps⟩
      refine @traceIndexLoop_bounds ctx.n_traces ctx.densities 0 ps
        (by unfold _interpolate_trace_index at hps; exact hps) ?_
      rw [hdd, hnt]
      omega
    · exact ⟨row_wise_bounds hps, row_wise_shape hps⟩
    · refine ⟨mean_minmax_bounds ?_ ?_ hps, mean_minmax_shape hps⟩
      · rw [hdd]
        exact hy
      · rw [hdd]
        exact hb
    · exact ⟨mean_means_bounds hps, mean_means_shape hps⟩
  obtain ⟨hbounds, hshape⟩ := hkey
  have hcanon := normalise_colorscale_canonical hsc
  obtain ⟨colors, hcolors, hclen⟩ := mapME2_ok_of_forall_exists
    (f := getColor sc alpha) (l := ps)
    (fun prow hprow p hp => getColor_ok hcanon (hbounds prow hprow p hp).1
      (hbounds prow hprow p hp).2)
  refine ⟨colors, ?_, ?_⟩
  · unfold compute_trace_colors
    rw [hsc]
    dsimp only
    rw [hmode]
    dsimp only
    rw [hps]
    dsimp only
    exact hcolors
  · rw [hclen, hshape, hdd]

/-- Witness for C1 at a concrete valid grid, the row-index colormode, and a
valid explicit two-stop colour scale. -/
theorem c1_compute_trace_colors_shape_witness :
    ∃ colors, compute_trace_colors (.explicitScale [((0 : ℚ), "red"), (1, "blue")])
        "row-index" none ⟨[[[(0, 1)], [(1, 1)]], [[(2, 1)]]], 2, 3, 0, 2⟩ =
        .ok colors ∧
      colors.map List.length =
        ([[[((0 : ℚ), (1 : ℚ))], [(1, 1)]], [[(2, 1)]]] : Densities).map List.length :=
  @c1_compute_trace_colors_shape
    [[[((0 : ℚ), (1 : ℚ))], [(1, 1)]], [[(2, 1)]]]
    ⟨[[[(0, 1)], [(1, 1)]], [[(2, 1)]]], 2, 3, 0, 2⟩
    "row-index"
    _interpolate_row_index
    [[1, 1], [0]]
    (.explicitScale [((0 : ℚ), "red"), (1, "blue")])
    [((0 : ℚ), "red"), (1, "blue")]
    none
    ⟨by decide, by decide, by decide, by decide⟩
    (by norm_num [InterpolationContext.from_densities, get_xy_extrema, pymin, pymax]
        simp)
    rfl
    (by norm_num [_interpolate_row_index, mapME, pydiv, List.enum, List.enumFrom]
        simp [Except.map])
    (by norm_num [normalise_colorscale, chainIncreasing])

end Ridgeplot
